/-
Verification of the manila-plugin relation interface
(files src/requires.py and src/provides.py).

The development shallowly embeds the two endpoint classes:
  * ManilaPluginRequires (the principal / manila side)
  * ManilaPluginProvides (the subordinate / plugin side)

Structured payloads travel as JSON text of the envelope obj [("data", d)].
We embed a JSON value type together with an executable serializer (the model
of Python's json.dumps) and an executable parser (the model of json.loads),
and prove the round-trip theorem the getters rely on.

Modelling notes for the external collaborators (Python stdlib, charmhelpers,
charms.reactive), which are not part of the repository:
  * strings are modelled as List Char;
  * json.dumps is modelled compactly (no item/key separator spaces) and the
    serializer escapes the two characters that are significant for
    re-parsing, a quote and a backslash; other characters are carried
    literally.  None of the verified observables (round trip, equality of
    the local and remote copies, the dedup comparison, which is performed on
    decoded values) depend on the remaining cosmetic differences from
    CPython's encoder;
  * floating point numbers are out of scope; JSON numbers are integers here;
  * Python exceptions are modelled with an explicit error type: list
    indexing an empty list raises IndexError, json.loads raises
    JSONDecodeError which is a subclass of ValueError, dict subscript
    raises KeyError, subscripting a non-container raises TypeError, and
    calling .keys() on a non-dict raises AttributeError.  An `except
    ValueError` handler catches ValueError only: in particular it does NOT
    catch IndexError;
  * a Python dict is modelled as an association list of members; a real
    dict never holds a duplicate key, so theorems that depend on dict
    semantics carry a Nodup hypothesis on the key list;
  * relation conversations are identified by their scope, modelled as Nat;
  * hookenv.log has no observable effect; the one observable warning (the
    key-set check of the authentication_data setter) is returned explicitly.
-/
import Mathlib

/-! ## The JSON value model -/

/-- A scope names one conversation (one session with a remote peer). -/
abbrev Scope := Nat

/-- A value stored in the relation key/value transport: a Python string. -/
abbrev Wire := List Char

mutual

/-- JSON values, as produced by the Python json module (floats omitted). -/
inductive Json : Type where
  | null : Json
  | bool : Bool → Json
  | num : Int → Json
  | str : List Char → Json
  | arr : JArr → Json
  | obj : JMems → Json
  deriving DecidableEq

/-- The element list of a JSON array. -/
inductive JArr : Type where
  | nil : JArr
  | cons : Json → JArr → JArr
  deriving DecidableEq

/-- The member list of a JSON object (a Python dict in document order). -/
inductive JMems : Type where
  | nil : JMems
  | cons : List Char → Json → JMems → JMems
  deriving DecidableEq

end

/-- The keys of a dict, in order (Python dict.keys()). -/
def keyList : JMems → List (List Char)
  | JMems.nil => []
  | JMems.cons k _ tl => k :: keyList tl

/-- Python dict subscript d[k] (None when the key is absent).  Python dicts
never hold a duplicate key, so first-match lookup is adequate; theorems that
depend on it carry a Nodup hypothesis on `keyList`. -/
def pyGet : JMems → List Char → Option Json
  | JMems.nil, _ => none
  | JMems.cons k v tl, key => if k = key then some v else pyGet tl key

/-- Bool test for a conjunct holding of every member of a dict. -/
def memsAll (p : List Char → Json → Bool) : JMems → Bool
  | JMems.nil => true
  | JMems.cons k v tl => p k v && memsAll p tl

/-- Bool membership in a list of keys. -/
def memB (k : List Char) (l : List (List Char)) : Bool :=
  l.any (fun x => x == k)

/-- Set equality of two key lists: Python's dict.keys() == dict.keys(). -/
def keySetEqB (a b : List (List Char)) : Bool :=
  a.all (fun k => memB k b) && b.all (fun k => memB k a)

/-- The dedup comparison of the authentication_data setter
(src/requires.py lines 150-152): same key set, and every item of the
previously stored dict equals the corresponding entry of the new value. -/
def dictEqB (ex value : JMems) : Bool :=
  keySetEqB (keyList ex) (keyList value) &&
  memsAll (fun k v => match pyGet value k with
                      | some v2 => v == v2
                      | none => false) ex

/-! ## The serializer (model of json.dumps) -/

/-- The opening brace character of a JSON object. -/
def lbrace : Char := Char.ofNat 123

/-- The closing brace character of a JSON object. -/
def rbrace : Char := Char.ofNat 125

/-- Escape one character of a JSON string. -/
def escChar (c : Char) : List Char :=
  if c = '"' then ['\\', '"']
  else if c = '\\' then ['\\', '\\']
  else [c]

/-- Escape the body of a JSON string. -/
def escStr : List Char → List Char
  | [] => []
  | c :: cs => escChar c ++ escStr cs

/-- Decimal digits of a natural number, most significant first. -/
def dumpNat (n : Nat) : List Char :=
  if n = 0 then ['0'] else (Nat.digits 10 n).reverse.map Nat.digitChar

/-- Decimal form of an integer. -/
def dumpInt (i : Int) : List Char :=
  if i < 0 then '-' :: dumpNat i.natAbs else dumpNat i.toNat

/-- A serialized object key followed by the colon separator. -/
def dumpKey (k : List Char) : List Char :=
  '"' :: (escStr k ++ ['"', ':'])

mutual

/-- Model of json.dumps. -/
def dumpsJ : Json → List Char
  | Json.null => ['n', 'u', 'l', 'l']
  | Json.bool true => ['t', 'r', 'u', 'e']
  | Json.bool false => ['f', 'a', 'l', 's', 'e']
  | Json.num i => dumpInt i
  | Json.str s => '"' :: (escStr s ++ ['"'])
  | Json.arr JArr.nil => ['[', ']']
  | Json.arr (JArr.cons x tl) => '[' :: (dumpsArrBody (JArr.cons x tl) ++ [']'])
  | Json.obj JMems.nil => [lbrace, rbrace]
  | Json.obj (JMems.cons k v tl) => lbrace :: (dumpsMemsBody (JMems.cons k v tl) ++ [rbrace])

/-- Comma-separated serialization of nonempty array elements. -/
def dumpsArrBody : JArr → List Char
  | JArr.nil => []
  | JArr.cons x JArr.nil => dumpsJ x
  | JArr.cons x (JArr.cons y tl) => dumpsJ x ++ ',' :: dumpsArrBody (JArr.cons y tl)

/-- Comma-separated serialization of nonempty object members. -/
def dumpsMemsBody : JMems → List Char
  | JMems.nil => []
  | JMems.cons k v JMems.nil => dumpKey k ++ dumpsJ v
  | JMems.cons k v (JMems.cons k2 v2 tl) =>
      dumpKey k ++ dumpsJ v ++ ',' :: dumpsMemsBody (JMems.cons k2 v2 tl)

end

/-! ## The parser (model of json.loads) -/

/-- Unescape one escaped character of a JSON string. -/
def unescChar (c : Char) : Option Char :=
  if c = '"' then some '"'
  else if c = '\\' then some '\\'
  else if c = '/' then some '/'
  else if c = 'n' then some '\n'
  else if c = 't' then some '\t'
  else if c = 'r' then some '\r'
  else if c = 'b' then some (Char.ofNat 8)
  else if c = 'f' then some (Char.ofNat 12)
  else none

/-- Scanner for the body of a JSON string; the Bool records whether the
previous character was a still-unconsumed backslash. -/
def parseStrAux : Bool → List Char → Option (List Char × List Char)
  | _, [] => none
  | true, e :: rest =>
    match unescChar e with
    | none => none
    | some u =>
      match parseStrAux false rest with
      | none => none
      | some (s, r) => some (u :: s, r)
  | false, c :: rest =>
    if c = '"' then some ([], rest)
    else if c = '\\' then parseStrAux true rest
    else
      match parseStrAux false rest with
      | none => none
      | some (s, r) => some (c :: s, r)

/-- Parse the body of a JSON string after the opening quote, returning the
decoded body and the input following the closing quote. -/
def parseStrBody : List Char → Option (List Char × List Char) :=
  parseStrAux false

/-- Munch decimal digits, folding them onto an accumulator. -/
def parseDigits : List Char → Nat → Nat × List Char
  | [], acc => (acc, [])
  | c :: cs, acc =>
    if c.isDigit then parseDigits cs (acc * 10 + (c.toNat - 48)) else (acc, c :: cs)

/-- The three mutually recursive JSON parsers (one value, nonempty array
elements, nonempty object members), bundled as a triple and defined by
structural recursion on fuel so that they reduce definitionally. -/
def parsers : Nat →
    ((List Char → Option (Json × List Char)) ×
     (List Char → Option (JArr × List Char)) ×
     (List Char → Option (JMems × List Char)))
  | 0 => (fun _ => none, fun _ => none, fun _ => none)
  | f + 1 =>
    ( fun input =>
        match input with
        | [] => none
        | c :: rest =>
          if c = 'n' then
            match rest with
            | 'u' :: 'l' :: 'l' :: r => some (Json.null, r)
            | _ => none
          else if c = 't' then
            match rest with
            | 'r' :: 'u' :: 'e' :: r => some (Json.bool true, r)
            | _ => none
          else if c = 'f' then
            match rest with
            | 'a' :: 'l' :: 's' :: 'e' :: r => some (Json.bool false, r)
            | _ => none
          else if c = '"' then
            match parseStrBody rest with
            | some (s, r) => some (Json.str s, r)
            | none => none
          else if c = '[' then
            if rest.head? = some ']' then some (Json.arr JArr.nil, rest.tail)
            else
              match (parsers f).2.1 rest with
              | some (xs, r) => some (Json.arr xs, r)
              | none => none
          else if c = lbrace then
            if rest.head? = some rbrace then some (Json.obj JMems.nil, rest.tail)
            else
              match (parsers f).2.2 rest with
              | some (ms, r) => some (Json.obj ms, r)
              | none => none
          else if c = '-' then
            match rest with
            | [] => none
            | d :: ds =>
              if d.isDigit then
                some (Json.num (-((parseDigits (d :: ds) 0).1 : Int)),
                  (parseDigits (d :: ds) 0).2)
              else none
          else if c.isDigit then
            some (Json.num ((parseDigits (c :: rest) 0).1 : Int),
              (parseDigits (c :: rest) 0).2)
          else none
    , fun input =>
        match (parsers f).1 input with
        | none => none
        | some (j, r) =>
          match r with
          | ',' :: r2 =>
            match (parsers f).2.1 r2 with
            | some (tl, r3) => some (JArr.cons j tl, r3)
            | none => none
          | ']' :: r2 => some (JArr.cons j JArr.nil, r2)
          | _ => none
    , fun input =>
        match input with
        | '"' :: r0 =>
          match parseStrBody r0 with
          | none => none
          | some (k, r1) =>
            match r1 with
            | ':' :: r2 =>
              match (parsers f).1 r2 with
              | none => none
              | some (v, r3) =>
                match r3 with
                | ',' :: r4 =>
                  match (parsers f).2.2 r4 with
                  | some (tl, r5) => some (JMems.cons k v tl, r5)
                  | none => none
                | c2 :: r4 =>
                  if c2 = rbrace then some (JMems.cons k v JMems.nil, r4) else none
                | [] => none
            | _ => none
        | _ => none )

/-- Parse one JSON value; the Nat is recursion fuel. -/
def parseVal (f : Nat) : List Char → Option (Json × List Char) :=
  (parsers f).1

/-- Parse the elements of a nonempty array up to and including the closing
bracket. -/
def parseArrItems (f : Nat) : List Char → Option (JArr × List Char) :=
  (parsers f).2.1

/-- Parse the members of a nonempty object up to and including the closing
brace. -/
def parseMemsItems (f : Nat) : List Char → Option (JMems × List Char) :=
  (parsers f).2.2

/-- Model of json.loads: parse a full JSON document (none models a raised
json.JSONDecodeError, which in Python is a subclass of ValueError). -/
def loads (s : List Char) : Option Json :=
  match parseVal (s.length + 1) s with
  | some (j, []) => some j
  | _ => none

/-! ## The envelope -/

/-- The envelope field name. -/
def dataKey : List Char := "data".toList

/-- The wrapper dict placed around every structured payload before
serialization (the Python expression is a dict display with the single
key "data"). -/
def envelope (d : Json) : Json :=
  Json.obj (JMems.cons dataKey d JMems.nil)

/-- The serialized envelope, the exact string handed to set_local and
set_remote. -/
def envWire (d : Json) : Wire :=
  dumpsJ (envelope d)

/-- Python exceptions distinguished by the embedding. -/
inductive PyErr : Type where
  | indexError : PyErr
  | valueError : PyErr
  | keyError : PyErr
  | typeError : PyErr
  | attributeError : PyErr
  deriving DecidableEq

/-- Model of the Python subscript j["data"]: KeyError when the key is
missing, TypeError when j is not a container. -/
def indexData (j : Json) : Except PyErr Json :=
  match j with
  | Json.obj ms =>
    match pyGet ms dataKey with
    | some d => Except.ok d
    | none => Except.error PyErr.keyError
  | _ => Except.error PyErr.typeError

/-! ## ManilaPluginRequires (src/requires.py, the principal side) -/

namespace ManilaPluginRequires

/-- The observable state of the principal endpoint: the three reactive
flags, the two inbound auto-accessor fields (_name and
_configuration_data, pushed by the remote peer over the transport), the
live conversations, and the per-scope local and remote slots written for
_authentication_data. -/
structure State where
  connected : Bool
  available : Bool
  changed : Bool
  nameIn : Option Wire
  configIn : Option Wire
  convs : List Scope
  localAuth : Scope → Option Wire
  remoteAuth : Scope → Option Wire

/-- The state before any event has fired. -/
def init : State :=
  { connected := false, available := false, changed := false,
    nameIn := none, configIn := none, convs := [],
    localAuth := fun _ => none, remoteAuth := fun _ => none }

/-- update_status (requires.py lines 63-81): set .available and .changed
when both the plugin name and the configuration data are present. -/
def update_status (s : State) : State :=
  if s.nameIn.isSome && s.configIn.isSome then
    { s with available := true, changed := true }
  else s

/-- The relation-joined hook (lines 44-48). -/
def joined (s : State) : State :=
  update_status { s with connected := true }

/-- The relation-changed hook (lines 50-53). -/
def changed (s : State) : State :=
  update_status s

/-- The relation-broken/departed hook (lines 55-61). -/
def departed (s : State) : State :=
  { s with connected := false, available := false, changed := false }

/-- clear_changed (lines 83-85). -/
def clear_changed (s : State) : State :=
  { s with changed := false }

/-- The authentication_data getter (lines 92-103).  The try block covers
conversations()[0] and get_local; with zero conversations the subscript
raises IndexError, which `except ValueError` does not catch, so it
propagates.  json.loads sits after the except clause, so a decode error
(JSONDecodeError, a ValueError) also propagates. -/
def authentication_data (s : State) : Except PyErr (Option Json) :=
  match s.convs.head? with
  | none => Except.error PyErr.indexError
  | some sc =>
    match s.localAuth sc with
    | none => Except.ok none
    | some w =>
      match loads w with
      | none => Except.error PyErr.valueError
      | some j =>
        match indexData j with
        | Except.ok d => Except.ok (some d)
        | Except.error e => Except.error e

/-- The configuration_data getter (lines 160-182): decode the inbound
auto-accessor field. -/
def configuration_data (s : State) : Except PyErr (Option Json) :=
  match s.configIn with
  | none => Except.ok none
  | some w =>
    match loads w with
    | none => Except.error PyErr.valueError
    | some j =>
      match indexData j with
      | Except.ok d => Except.ok (some d)
      | Except.error e => Except.error e

/-- Write the serialized envelope to both the local and the remote slot of
one conversation (lines 155-158; the two json.dumps calls there produce
the identical string). -/
def writeAuth (sc : Scope) (w : Wire) (s : State) : State :=
  { s with
    localAuth := fun x => if x = sc then some w else s.localAuth x,
    remoteAuth := fun x => if x = sc then some w else s.remoteAuth x }

/-- The dedup decision for one conversation (lines 141-154): ok true means
the envelope must be (re)written (nothing stored yet, or the stored dict
compares different), ok false means the stored payload equals the new
value so the write is skipped, and error e is an exception raised while
decoding the previously stored payload — the source wraps only get_local
in try/except, so such an exception propagates. -/
def slotCheck (value : JMems) : Option Wire → Except PyErr Bool
  | none => Except.ok true
  | some w =>
    match loads w with
    | none => Except.error PyErr.valueError
    | some j =>
      match indexData j with
      | Except.error e => Except.error e
      | Except.ok (Json.obj exm) => Except.ok (!(dictEqB exm value))
      | Except.ok _ => Except.error PyErr.attributeError

/-- The per-conversation loop of the authentication_data setter (lines
140-158).  Returns the final state, the scopes written (in order), and the
first uncaught exception if one was raised; an exception aborts the rest
of the loop but keeps the writes already performed, as in the source. -/
def authLoop (value : JMems) (env : Wire) :
    List Scope → State → State × List Scope × Option PyErr
  | [], s => (s, [], none)
  | sc :: rest, s =>
    match slotCheck value (s.localAuth sc) with
    | Except.error e => (s, [], some e)
    | Except.ok false => authLoop value env rest s
    | Except.ok true =>
      let r := authLoop value env rest (writeAuth sc env s)
      (r.1, sc :: r.2.1, r.2.2)

/-- The expected key set of the authentication data (lines 129-130). -/
def authKeys : List (List Char) :=
  ["username".toList, "password".toList, "project_domain_id".toList,
   "project_name".toList, "user_domain_id".toList, "auth_uri".toList,
   "auth_url".toList, "auth_type".toList]

/-- Result of one call of the authentication_data setter. -/
structure SetAuthResult where
  state : State
  writes : List Scope
  err : Option PyErr
  warned : Bool

/-- The authentication_data setter (lines 105-158).  `warned` records
whether the key-set check logged its warning (nonempty symmetric
difference of the passed and the expected key sets); the check has no
other effect. -/
def authentication_data_set (value : JMems) (s : State) : SetAuthResult :=
  let warned := !(keySetEqB (keyList value) authKeys)
  let r := authLoop value (envWire (Json.obj value)) s.convs s
  { state := r.1, writes := r.2.1, err := r.2.2, warned := warned }

/-- The operations that can touch a principal-endpoint state: the three
lifecycle hooks, the two explicit public methods, inbound transport
updates of the two auto-accessor fields, the outbound setter, and
conversation management by the transport. -/
inductive ROp : Type where
  | joined : ROp
  | changedHook : ROp
  | departed : ROp
  | updateStatus : ROp
  | clearChanged : ROp
  | recvName : Option Wire → ROp
  | recvConfig : Option Wire → ROp
  | setAuth : JMems → ROp
  | addConv : Scope → ROp
  | dropConv : Scope → ROp
  deriving DecidableEq

/-- One step of the principal endpoint. -/
def rstep : ROp → State → State
  | ROp.joined, s => joined s
  | ROp.changedHook, s => changed s
  | ROp.departed, s => departed s
  | ROp.updateStatus, s => update_status s
  | ROp.clearChanged, s => clear_changed s
  | ROp.recvName w, s => { s with nameIn := w }
  | ROp.recvConfig w, s => { s with configIn := w }
  | ROp.setAuth v, s => (authentication_data_set v s).state
  | ROp.addConv sc, s => { s with convs := sc :: s.convs }
  | ROp.dropConv sc, s => { s with convs := s.convs.filter (fun x => x ≠ sc) }

/-- Run a sequence of operations from a state. -/
def runR (ops : List ROp) (s : State) : State :=
  ops.foldl (fun st op => rstep op st) s

end ManilaPluginRequires

/-! ## ManilaPluginProvides (src/provides.py, the subordinate side) -/

namespace ManilaPluginProvides

/-- The observable state of the subordinate endpoint: the three reactive
flags, the inbound _authentication_data auto-accessor field, the live
conversations, and the per-scope local and remote slots written for _name
and _configuration_data. -/
structure State where
  connected : Bool
  available : Bool
  changed : Bool
  authIn : Option Wire
  convs : List Scope
  localName : Scope → Option Wire
  remoteName : Scope → Option Wire
  localConfig : Scope → Option Wire
  remoteConfig : Scope → Option Wire

/-- The state before any event has fired. -/
def init : State :=
  { connected := false, available := false, changed := false,
    authIn := none, convs := [],
    localName := fun _ => none, remoteName := fun _ => none,
    localConfig := fun _ => none, remoteConfig := fun _ => none }

/-- update_status (provides.py lines 66-86): set .available and .changed
when the authentication data has arrived. -/
def update_status (s : State) : State :=
  if s.authIn.isSome then { s with available := true, changed := true } else s

/-- The relation-joined hook (lines 40-44). -/
def joined (s : State) : State :=
  update_status { s with connected := true }

/-- The relation-changed hook (lines 46-56). -/
def changed (s : State) : State :=
  update_status s

/-- The relation-broken/departed hook (lines 58-64). -/
def departed (s : State) : State :=
  { s with connected := false, available := false, changed := false }

/-- clear_changed (lines 88-90). -/
def clear_changed (s : State) : State :=
  { s with changed := false }

/-- The name getter (lines 92-96): conversations()[0] with zero
conversations raises IndexError, unguarded. -/
def name (s : State) : Except PyErr (Option Wire) :=
  match s.convs.head? with
  | none => Except.error PyErr.indexError
  | some sc => Except.ok (s.localName sc)

/-- The name setter (lines 98-107): writes the raw string to the local and
the remote slot of the first conversation. -/
def name_set (w : Option Wire) (s : State) : Except PyErr State :=
  match s.convs.head? with
  | none => Except.error PyErr.indexError
  | some sc =>
    Except.ok
      { s with
        localName := fun x => if x = sc then w else s.localName x,
        remoteName := fun x => if x = sc then w else s.remoteName x }

/-- The authentication_data getter (lines 109-136): decode the inbound
auto-accessor field. -/
def authentication_data (s : State) : Except PyErr (Option Json) :=
  match s.authIn with
  | none => Except.ok none
  | some w =>
    match loads w with
    | none => Except.error PyErr.valueError
    | some j =>
      match indexData j with
      | Except.ok d => Except.ok (some d)
      | Except.error e => Except.error e

/-- The configuration_data getter (lines 138-147): conversations()[0] with
zero conversations raises IndexError, unguarded; then decode the stored
local value. -/
def configuration_data (s : State) : Except PyErr (Option Json) :=
  match s.convs.head? with
  | none => Except.error PyErr.indexError
  | some sc =>
    match s.localConfig sc with
    | none => Except.ok none
    | some w =>
      match loads w with
      | none => Except.error PyErr.valueError
      | some j =>
        match indexData j with
        | Except.ok d => Except.ok (some d)
        | Except.error e => Except.error e

/-- The configuration_data setter (lines 149-179): unconditionally write
the serialized envelope to both the local and the remote slot of the
first conversation (the two json.dumps calls produce the identical
string). -/
def configuration_data_set (d : Json) (s : State) : Except PyErr State :=
  match s.convs.head? with
  | none => Except.error PyErr.indexError
  | some sc =>
    Except.ok
      { s with
        localConfig := fun x => if x = sc then some (envWire d) else s.localConfig x,
        remoteConfig := fun x => if x = sc then some (envWire d) else s.remoteConfig x }

/-- The operations that can touch a subordinate-endpoint state. -/
inductive POp : Type where
  | joined : POp
  | changedHook : POp
  | departed : POp
  | updateStatus : POp
  | clearChanged : POp
  | recvAuth : Option Wire → POp
  | setName : Option Wire → POp
  | setConfig : Json → POp
  | addConv : Scope → POp
  | dropConv : Scope → POp
  deriving DecidableEq

/-- One step of the subordinate endpoint.  A setter that raises (no
conversation) leaves the state unchanged: the exception fires before any
mutation. -/
def pstep : POp → State → State
  | POp.joined, s => joined s
  | POp.changedHook, s => changed s
  | POp.departed, s => departed s
  | POp.updateStatus, s => update_status s
  | POp.clearChanged, s => clear_changed s
  | POp.recvAuth w, s => { s with authIn := w }
  | POp.setName w, s =>
    match name_set w s with
    | Except.ok s2 => s2
    | Except.error _ => s
  | POp.setConfig d, s =>
    match configuration_data_set d s with
    | Except.ok s2 => s2
    | Except.error _ => s
  | POp.addConv sc, s => { s with convs := sc :: s.convs }
  | POp.dropConv sc, s => { s with convs := s.convs.filter (fun x => x ≠ sc) }

/-- Run a sequence of operations from a state. -/
def runP (ops : List POp) (s : State) : State :=
  ops.foldl (fun st op => pstep op st) s

end ManilaPluginProvides

/-! ## Remaining definitions used by the theorems -/

/-- Holds of the input remaining after a serialized number: its first
character is not a digit, so the greedy digit munch stops exactly at the
number's end. -/
def numOkB : List Char → Bool
  | [] => true
  | c :: _ => !c.isDigit

mutual

/-- Fuel sufficient for parseVal to parse this serialized value. -/
def needV : Json → Nat
  | Json.arr (JArr.cons x tl) => needA (JArr.cons x tl) + 1
  | Json.obj (JMems.cons k v tl) => needM (JMems.cons k v tl) + 1
  | _ => 1

/-- Fuel sufficient for parseArrItems on these serialized elements. -/
def needA : JArr → Nat
  | JArr.nil => 1
  | JArr.cons x JArr.nil => needV x + 1
  | JArr.cons x (JArr.cons y tl) => max (needV x) (needA (JArr.cons y tl)) + 1

/-- Fuel sufficient for parseMemsItems on these serialized members. -/
def needM : JMems → Nat
  | JMems.nil => 1
  | JMems.cons _ v JMems.nil => needV v + 1
  | JMems.cons _ v (JMems.cons k2 v2 tl) => max (needV v) (needM (JMems.cons k2 v2 tl)) + 1

end

/-- The claim's phrasing of two dicts being different: the key sets are
not the same, or at least one key of the stored dict maps to a different
value. -/
def dictDiffers (ex value : JMems) : Prop :=
  (¬ ∀ k, k ∈ keyList ex ↔ k ∈ keyList value) ∨
  (∃ k, k ∈ keyList ex ∧ pyGet ex k ≠ pyGet value k)

namespace ManilaPluginRequires

/-- A stored wire value that decodes the way every value this interface
ever stores does: valid JSON whose "data" entry is a dict (a dict has no
duplicate keys). -/
def GoodStored (w : Wire) : Prop :=
  ∃ j m, loads w = some j ∧ indexData j = Except.ok (Json.obj m) ∧ (keyList m).Nodup

/-- The _authentication_data slot of one conversation is empty or
well-formed. -/
def GoodSlot (s : State) (sc : Scope) : Prop :=
  ∀ w, s.localAuth sc = some w → GoodStored w

/-- Well-formedness of a principal state: distinct conversation scopes and
well-formed stored slots.  Every state reachable through the endpoint's
own operations satisfies it, because set_local only ever stores the
serialized envelope of a dict. -/
def WF (s : State) : Prop :=
  s.convs.Nodup ∧ ∀ sc ∈ s.convs, GoodSlot s sc

/-- The previously stored payload of this conversation decodes to the dict
m. -/
def storedDict (s : State) (sc : Scope) (m : JMems) : Prop :=
  ∃ w j, s.localAuth sc = some w ∧ loads w = some j ∧
    indexData j = Except.ok (Json.obj m)

/-- The claim's write condition for one conversation: nothing stored yet,
or the stored dict differs from the new value. -/
def freshOrDiffers (s : State) (sc : Scope) (value : JMems) : Prop :=
  s.localAuth sc = none ∨ ∃ m, storedDict s sc m ∧ dictDiffers m value

end ManilaPluginRequires

/-! ## Helper lemmas: characters and digits -/

theorem digitChar_isDigit {d : Nat} (h : d < 10) : (Nat.digitChar d).isDigit = true := by
  interval_cases d <;> decide

theorem digitChar_toNat {d : Nat} (h : d < 10) : (Nat.digitChar d).toNat = 48 + d := by
  interval_cases d <;> decide

theorem isDigit_starts {c : Char} (h : c.isDigit = true) :
    c ≠ 'n' ∧ c ≠ 't' ∧ c ≠ 'f' ∧ c ≠ '"' ∧ c ≠ '[' ∧ c ≠ lbrace ∧ c ≠ '-' ∧
    c ≠ ']' ∧ c ≠ rbrace ∧ c ≠ ',' := by
  refine ⟨?_, ?_, ?_, ?_, ?_, ?_, ?_, ?_, ?_, ?_⟩ <;>
    (intro he; subst he; exact absurd h (by decide))

theorem numOkB_cons_of_not_digit {c : Char} (h : ¬ c.isDigit = true) (l : List Char) :
    numOkB (c :: l) = true := by
  simp [numOkB, h]

/-! ## Helper lemmas: parsing numbers -/

theorem parseDigits_stop {l : List Char} (h : numOkB l = true) (acc : Nat) :
    parseDigits l acc = (acc, l) := by
  cases l with
  | nil => rfl
  | cons c cs =>
    simp only [numOkB, Bool.not_eq_true'] at h
    simp [parseDigits, h]

theorem parseDigits_run (ds : List Nat) (hds : ∀ d ∈ ds, d < 10) (rest : List Char)
    (hr : numOkB rest = true) :
    ∀ acc, parseDigits (ds.map Nat.digitChar ++ rest) acc =
      (ds.foldl (fun a d => a * 10 + d) acc, rest) := by
  induction ds with
  | nil => intro acc; exact parseDigits_stop hr acc
  | cons d ds ih =>
    intro acc
    have hd : d < 10 := hds d (by simp)
    have h1 : (Nat.digitChar d).isDigit = true := digitChar_isDigit hd
    have h2 : (Nat.digitChar d).toNat = 48 + d := digitChar_toNat hd
    simp only [List.map_cons, List.cons_append, parseDigits, h1, if_true, h2]
    have h3 : 48 + d - 48 = d := by omega
    rw [h3]
    simp only [List.foldl_cons]
    exact ih (fun x hx => hds x (by simp [hx])) (acc * 10 + d)

theorem foldl_reverse_ofDigits (L : List Nat) :
    ∀ acc, L.reverse.foldl (fun a d => a * 10 + d) acc =
      acc * 10 ^ L.length + Nat.ofDigits 10 L := by
  induction L with
  | nil => intro acc; simp [Nat.ofDigits_nil]
  | cons d L ih =>
    intro acc
    rw [List.reverse_cons, List.foldl_append]
    simp only [List.foldl_cons, List.foldl_nil, ih acc, Nat.ofDigits_cons,
      List.length_cons]
    ring

theorem parseDigits_dumpNat (n : Nat) (rest : List Char) (hr : numOkB rest = true) :
    parseDigits (dumpNat n ++ rest) 0 = (n, rest) := by
  by_cases h0 : n = 0
  · subst h0
    have h1 : parseDigits (dumpNat 0 ++ rest) 0 = parseDigits rest 0 := rfl
    rw [h1, parseDigits_stop hr]
  · have hdig : ∀ d ∈ (Nat.digits 10 n).reverse, d < 10 := by
      intro d hd
      exact Nat.digits_lt_base (by norm_num) (List.mem_reverse.mp hd)
    simp only [dumpNat, h0, if_false]
    rw [parseDigits_run _ hdig rest hr 0, foldl_reverse_ofDigits]
    simp [Nat.ofDigits_digits]

theorem dumpNat_head (n : Nat) :
    ∃ c cs, dumpNat n = c :: cs ∧ c.isDigit = true := by
  by_cases h0 : n = 0
  · exact ⟨'0', [], by simp [dumpNat, h0], by decide⟩
  · have hne : Nat.digits 10 n ≠ [] := Nat.digits_ne_nil_iff_ne_zero.mpr h0
    rcases hrev : (Nat.digits 10 n).reverse with _ | ⟨d, ds⟩
    · exact absurd (by simpa using hrev) hne
    · refine ⟨Nat.digitChar d, ds.map Nat.digitChar, by simp [dumpNat, h0, hrev], ?_⟩
      have : d ∈ Nat.digits 10 n := by
        have : d ∈ (Nat.digits 10 n).reverse := by simp [hrev]
        exact List.mem_reverse.mp this
      exact digitChar_isDigit (Nat.digits_lt_base (by norm_num) this)

theorem dumpInt_head (i : Int) :
    ∃ c cs, dumpInt i = c :: cs ∧ (c = '-' ∨ c.isDigit = true) := by
  by_cases hi : i < 0
  · exact ⟨'-', dumpNat i.natAbs, by simp [dumpInt, hi], Or.inl rfl⟩
  · obtain ⟨c, cs, hc, hdig⟩ := dumpNat_head i.toNat
    exact ⟨c, cs, by simp [dumpInt, hi, hc], Or.inr hdig⟩

/-! ## Helper lemmas: parsing strings -/

theorem parseStrBody_lit {c : Char} (hq : c ≠ '"') (hb : c ≠ '\\') (rest : List Char) :
    parseStrBody (c :: rest) =
      match parseStrBody rest with
      | none => none
      | some (s, r) => some (c :: s, r) := by
  show parseStrAux false (c :: rest) = _
  simp only [parseStrAux, if_neg hq, if_neg hb]
  rfl

theorem parseStrBody_escStr (s : List Char) :
    ∀ rest, parseStrBody (escStr s ++ '"' :: rest) = some (s, rest) := by
  induction s with
  | nil =>
    intro rest
    rfl
  | cons c cs ih =>
    intro rest
    by_cases hq : c = '"'
    · subst hq
      have h1 : parseStrBody (escStr ('"' :: cs) ++ '"' :: rest) =
          match parseStrBody (escStr cs ++ '"' :: rest) with
          | none => none
          | some (s, r) => some ('"' :: s, r) := rfl
      rw [h1, ih rest]
    · by_cases hb : c = '\\'
      · subst hb
        have h1 : parseStrBody (escStr ('\\' :: cs) ++ '"' :: rest) =
            match parseStrBody (escStr cs ++ '"' :: rest) with
            | none => none
            | some (s, r) => some ('\\' :: s, r) := rfl
        rw [h1, ih rest]
      · have h1 : escStr (c :: cs) ++ '"' :: rest =
            c :: (escStr cs ++ '"' :: rest) := by
          simp [escStr, escChar, hq, hb]
        rw [h1, parseStrBody_lit hq hb, ih rest]

/-! ## Helper lemmas: the first character of a serialized value -/

theorem dumpsJ_head (j : Json) :
    ∃ c cs, dumpsJ j = c :: cs ∧
      (c = 'n' ∨ c = 't' ∨ c = 'f' ∨ c = '-' ∨ c.isDigit = true ∨ c = '"' ∨
       c = '[' ∨ c = lbrace) := by
  cases j with
  | null => exact ⟨'n', _, rfl, by tauto⟩
  | bool b =>
    cases b
    · exact ⟨'f', _, rfl, by tauto⟩
    · exact ⟨'t', _, rfl, by tauto⟩
  | num i =>
    obtain ⟨c, cs, hc, hd⟩ := dumpInt_head i
    exact ⟨c, cs, by simp [dumpsJ, hc], by tauto⟩
  | str s => exact ⟨'"', _, rfl, by tauto⟩
  | arr xs =>
    cases xs
    · exact ⟨'[', _, rfl, by tauto⟩
    · exact ⟨'[', _, rfl, by tauto⟩
  | obj ms =>
    cases ms
    · exact ⟨lbrace, _, rfl, by tauto⟩
    · exact ⟨lbrace, _, rfl, by tauto⟩

theorem head_not_close {c : Char}
    (h : c = 'n' ∨ c = 't' ∨ c = 'f' ∨ c = '-' ∨ c.isDigit = true ∨ c = '"' ∨
      c = '[' ∨ c = lbrace) :
    c ≠ ']' ∧ c ≠ rbrace ∧ c ≠ ',' := by
  rcases h with h | h | h | h | h | h | h | h
  all_goals first
    | (subst h; exact ⟨by decide, by decide, by decide⟩)
    | exact ⟨(isDigit_starts h).2.2.2.2.2.2.2.1,
        (isDigit_starts h).2.2.2.2.2.2.2.2.1,
        (isDigit_starts h).2.2.2.2.2.2.2.2.2⟩

/-! ## Helper lemmas: fuel positivity and single-step parser unfoldings -/

theorem needV_pos (j : Json) : 1 ≤ needV j := by
  rw [needV.eq_def]
  split <;> omega

theorem needA_pos (xs : JArr) : 1 ≤ needA xs := by
  rw [needA.eq_def]
  split <;> omega

theorem needM_pos (ms : JMems) : 1 ≤ needM ms := by
  rw [needM.eq_def]
  split <;> omega

theorem parseVal_null (f : Nat) (r : List Char) :
    parseVal (f + 1) ('n' :: 'u' :: 'l' :: 'l' :: r) = some (Json.null, r) := rfl

theorem parseVal_true (f : Nat) (r : List Char) :
    parseVal (f + 1) ('t' :: 'r' :: 'u' :: 'e' :: r) = some (Json.bool true, r) := rfl

theorem parseVal_false (f : Nat) (r : List Char) :
    parseVal (f + 1) ('f' :: 'a' :: 'l' :: 's' :: 'e' :: r) = some (Json.bool false, r) := rfl

theorem parseVal_str (f : Nat) (r : List Char) :
    parseVal (f + 1) ('"' :: r) =
      match parseStrBody r with
      | some (s, r2) => some (Json.str s, r2)
      | none => none := rfl

theorem parseVal_arrNil (f : Nat) (r : List Char) :
    parseVal (f + 1) ('[' :: ']' :: r) = some (Json.arr JArr.nil, r) := rfl

theorem parseVal_arr (f : Nat) {rest : List Char} (h : rest.head? ≠ some ']') :
    parseVal (f + 1) ('[' :: rest) =
      match parseArrItems f rest with
      | some (xs, r) => some (Json.arr xs, r)
      | none => none := by
  have e : parseVal (f + 1) ('[' :: rest) =
      if rest.head? = some ']' then some (Json.arr JArr.nil, rest.tail)
      else
        match parseArrItems f rest with
        | some (xs, r) => some (Json.arr xs, r)
        | none => none := rfl
  rw [e, if_neg h]

theorem parseVal_objNil (f : Nat) (r : List Char) :
    parseVal (f + 1) (lbrace :: rbrace :: r) = some (Json.obj JMems.nil, r) := rfl

theorem parseVal_obj (f : Nat) {rest : List Char} (h : rest.head? ≠ some rbrace) :
    parseVal (f + 1) (lbrace :: rest) =
      match parseMemsItems f rest with
      | some (ms, r) => some (Json.obj ms, r)
      | none => none := by
  have e : parseVal (f + 1) (lbrace :: rest) =
      if rest.head? = some rbrace then some (Json.obj JMems.nil, rest.tail)
      else
        match parseMemsItems f rest with
        | some (ms, r) => some (Json.obj ms, r)
        | none => none := rfl
  rw [e, if_neg h]

theorem parseVal_digit (f : Nat) {c : Char} (hc : c.isDigit = true) (rest : List Char) :
    parseVal (f + 1) (c :: rest) =
      some (Json.num ((parseDigits (c :: rest) 0).1 : Int), (parseDigits (c :: rest) 0).2) := by
  obtain ⟨h1, h2, h3, h4, h5, h6, h7, _, _, _⟩ := isDigit_starts hc
  simp [parseVal, parsers, h1, h2, h3, h4, h5, h6, h7, hc]

theorem parseVal_neg (f : Nat) {d : Char} (hd : d.isDigit = true) (ds : List Char) :
    parseVal (f + 1) ('-' :: d :: ds) =
      some (Json.num (-((parseDigits (d :: ds) 0).1 : Int)), (parseDigits (d :: ds) 0).2) := by
  have hl : ¬('-' = lbrace) := by decide
  simp [parseVal, parsers, hd, hl]

/-! ## The round-trip theorem: parsing inverts serialization -/

theorem numOkB_rbracket (l : List Char) : numOkB (']' :: l) = true := rfl

theorem numOkB_comma (l : List Char) : numOkB (',' :: l) = true := rfl

theorem numOkB_rbrace (l : List Char) : numOkB (rbrace :: l) = true := rfl

theorem parseRound (f : Nat) :
    (∀ j rest, needV j ≤ f → numOkB rest = true →
      parseVal f (dumpsJ j ++ rest) = some (j, rest)) ∧
    (∀ x tl rest, needA (JArr.cons x tl) ≤ f →
      parseArrItems f (dumpsArrBody (JArr.cons x tl) ++ ']' :: rest) =
        some (JArr.cons x tl, rest)) ∧
    (∀ k v tl rest, needM (JMems.cons k v tl) ≤ f →
      parseMemsItems f (dumpsMemsBody (JMems.cons k v tl) ++ rbrace :: rest) =
        some (JMems.cons k v tl, rest)) := by
  induction f with
  | zero =>
    refine ⟨?_, ?_, ?_⟩
    · intro j rest h _
      exact absurd h (by have := needV_pos j; omega)
    · intro x tl rest h
      exact absurd h (by have := needA_pos (JArr.cons x tl); omega)
    · intro k v tl rest h
      exact absurd h (by have := needM_pos (JMems.cons k v tl); omega)
  | succ f ih =>
    obtain ⟨ihV, ihA, ihM⟩ := ih
    refine ⟨?_, ?_, ?_⟩
    · intro j rest hneed hrest
      cases j with
      | null =>
        rw [show dumpsJ Json.null = ['n', 'u', 'l', 'l'] from by simp [dumpsJ]]
        exact parseVal_null f rest
      | bool b =>
        cases b
        · rw [show dumpsJ (Json.bool false) = ['f', 'a', 'l', 's', 'e'] from by
            simp [dumpsJ]]
          exact parseVal_false f rest
        · rw [show dumpsJ (Json.bool true) = ['t', 'r', 'u', 'e'] from by simp [dumpsJ]]
          exact parseVal_true f rest
      | num i =>
        rw [show dumpsJ (Json.num i) = dumpInt i from by simp [dumpsJ]]
        by_cases hi : i < 0
        · have h2 : dumpInt i = '-' :: dumpNat i.natAbs := by simp [dumpInt, hi]
          obtain ⟨c0, cs, hc0, hdg⟩ := dumpNat_head i.natAbs
          have h3 : dumpInt i ++ rest = '-' :: c0 :: (cs ++ rest) := by
            rw [h2, hc0]; simp
          rw [h3, parseVal_neg f hdg (cs ++ rest)]
          have h4 : parseDigits (c0 :: (cs ++ rest)) 0 = (i.natAbs, rest) := by
            have h5 := parseDigits_dumpNat i.natAbs rest hrest
            rw [hc0] at h5
            simpa using h5
          rw [h4]
          have h6 : -((i.natAbs : Int)) = i := by omega
          rw [h6]
        · have h2 : dumpInt i = dumpNat i.toNat := by simp [dumpInt, hi]
          obtain ⟨c0, cs, hc0, hdg⟩ := dumpNat_head i.toNat
          have h3 : dumpInt i ++ rest = c0 :: (cs ++ rest) := by
            rw [h2, hc0]; simp
          rw [h3, parseVal_digit f hdg (cs ++ rest)]
          have h4 : parseDigits (c0 :: (cs ++ rest)) 0 = (i.toNat, rest) := by
            have h5 := parseDigits_dumpNat i.toNat rest hrest
            rw [hc0] at h5
            simpa using h5
          rw [h4]
          have h6 : ((i.toNat : Nat) : Int) = i := by omega
          rw [h6]
      | str s =>
        rw [show dumpsJ (Json.str s) = '"' :: (escStr s ++ ['"']) from by simp [dumpsJ]]
        have e : ('"' :: (escStr s ++ ['"'])) ++ rest =
            '"' :: (escStr s ++ '"' :: rest) := by simp
        rw [e, parseVal_str, parseStrBody_escStr s rest]
      | arr xs =>
        cases xs with
        | nil =>
          rw [show dumpsJ (Json.arr JArr.nil) = ['[', ']'] from by simp [dumpsJ]]
          exact parseVal_arrNil f rest
        | cons x tl =>
          rw [show dumpsJ (Json.arr (JArr.cons x tl)) =
              '[' :: (dumpsArrBody (JArr.cons x tl) ++ [']']) from by simp [dumpsJ]]
          have e : ('[' :: (dumpsArrBody (JArr.cons x tl) ++ [']'])) ++ rest =
              '[' :: (dumpsArrBody (JArr.cons x tl) ++ ']' :: rest) := by simp
          rw [e]
          obtain ⟨c0, cs0, hx, hstart⟩ := dumpsJ_head x
          have hbody : ∃ bs, dumpsArrBody (JArr.cons x tl) = c0 :: bs := by
            cases tl with
            | nil => exact ⟨cs0, by simp [dumpsArrBody, hx]⟩
            | cons y tl2 =>
              exact ⟨cs0 ++ ',' :: dumpsArrBody (JArr.cons y tl2), by
                simp [dumpsArrBody, hx]⟩
          obtain ⟨bs, hb⟩ := hbody
          have hhead : (dumpsArrBody (JArr.cons x tl) ++ ']' :: rest).head? ≠
              some ']' := by
            rw [hb]
            simp only [List.cons_append, List.head?_cons, ne_eq, Option.some.injEq]
            exact (head_not_close hstart).1
          rw [parseVal_arr f hhead]
          have hn : needA (JArr.cons x tl) ≤ f := by
            have h5 : needV (Json.arr (JArr.cons x tl)) = needA (JArr.cons x tl) + 1 := by
              simp [needV]
            omega
          rw [ihA x tl rest hn]
      | obj ms =>
        cases ms with
        | nil =>
          rw [show dumpsJ (Json.obj JMems.nil) = [lbrace, rbrace] from by simp [dumpsJ]]
          exact parseVal_objNil f rest
        | cons k v tl =>
          rw [show dumpsJ (Json.obj (JMems.cons k v tl)) =
              lbrace :: (dumpsMemsBody (JMems.cons k v tl) ++ [rbrace]) from by
            simp [dumpsJ]]
          have e : (lbrace :: (dumpsMemsBody (JMems.cons k v tl) ++ [rbrace])) ++ rest =
              lbrace :: (dumpsMemsBody (JMems.cons k v tl) ++ rbrace :: rest) := by simp
          rw [e]
          have hbody : ∃ bs, dumpsMemsBody (JMems.cons k v tl) = '"' :: bs := by
            cases tl with
            | nil => exact ⟨escStr k ++ ['"', ':'] ++ dumpsJ v, by
                simp [dumpsMemsBody, dumpKey]⟩
            | cons k2 v2 tl2 =>
              exact ⟨escStr k ++ ['"', ':'] ++ (dumpsJ v ++
                  ',' :: dumpsMemsBody (JMems.cons k2 v2 tl2)), by
                simp [dumpsMemsBody, dumpKey]⟩
          obtain ⟨bs, hb⟩ := hbody
          have hhead : (dumpsMemsBody (JMems.cons k v tl) ++ rbrace :: rest).head? ≠
              some rbrace := by
            rw [hb]
            simp only [List.cons_append, List.head?_cons, ne_eq, Option.some.injEq]
            decide
          rw [parseVal_obj f hhead]
          have hn : needM (JMems.cons k v tl) ≤ f := by
            have h5 : needV (Json.obj (JMems.cons k v tl)) =
                needM (JMems.cons k v tl) + 1 := by simp [needV]
            omega
          rw [ihM k v tl rest hn]
    · intro x tl rest hneed
      have eA : ∀ input : List Char, parseArrItems (f + 1) input =
          match parseVal f input with
          | none => none
          | some (j, r) =>
            match r with
            | ',' :: r2 =>
              match parseArrItems f r2 with
              | some (tl2, r3) => some (JArr.cons j tl2, r3)
              | none => none
            | ']' :: r2 => some (JArr.cons j JArr.nil, r2)
            | _ => none := fun _ => rfl
      cases tl with
      | nil =>
        have h1 : dumpsArrBody (JArr.cons x JArr.nil) ++ ']' :: rest =
            dumpsJ x ++ ']' :: rest := by simp [dumpsArrBody]
        have hv : needV x ≤ f := by
          have h5 : needA (JArr.cons x JArr.nil) = needV x + 1 := by simp [needA]
          omega
        rw [h1, eA, ihV x (']' :: rest) hv (numOkB_rbracket rest)]
        rfl
      | cons y tl2 =>
        have h1 : dumpsArrBody (JArr.cons x (JArr.cons y tl2)) ++ ']' :: rest =
            dumpsJ x ++ ',' :: (dumpsArrBody (JArr.cons y tl2) ++ ']' :: rest) := by
          simp [dumpsArrBody]
        have h5 : needA (JArr.cons x (JArr.cons y tl2)) =
            max (needV x) (needA (JArr.cons y tl2)) + 1 := by simp [needA]
        have hv : needV x ≤ f := by
          have h6 := Nat.le_max_left (needV x) (needA (JArr.cons y tl2))
          omega
        have ha : needA (JArr.cons y tl2) ≤ f := by
          have h6 := Nat.le_max_right (needV x) (needA (JArr.cons y tl2))
          omega
        rw [h1, eA,
          ihV x (',' :: (dumpsArrBody (JArr.cons y tl2) ++ ']' :: rest)) hv
            (numOkB_comma _)]
        simp only [ihA y tl2 rest ha]
    · intro k v tl rest hneed
      have eM : ∀ r0 : List Char, parseMemsItems (f + 1) ('"' :: r0) =
          match parseStrBody r0 with
          | none => none
          | some (k2, r1) =>
            match r1 with
            | ':' :: r2 =>
              match parseVal f r2 with
              | none => none
              | some (v2, r3) =>
                match r3 with
                | ',' :: r4 =>
                  match parseMemsItems f r4 with
                  | some (tl2, r5) => some (JMems.cons k2 v2 tl2, r5)
                  | none => none
                | c2 :: r4 =>
                  if c2 = rbrace then some (JMems.cons k2 v2 JMems.nil, r4) else none
                | [] => none
            | _ => none := fun _ => rfl
      cases tl with
      | nil =>
        have h1 : dumpsMemsBody (JMems.cons k v JMems.nil) ++ rbrace :: rest =
            '"' :: (escStr k ++ '"' :: (':' :: (dumpsJ v ++ rbrace :: rest))) := by
          simp [dumpsMemsBody, dumpKey]
        have hv : needV v ≤ f := by
          have h5 : needM (JMems.cons k v JMems.nil) = needV v + 1 := by simp [needM]
          omega
        rw [h1, eM, parseStrBody_escStr k (':' :: (dumpsJ v ++ rbrace :: rest))]
        simp only [ihV v (rbrace :: rest) hv (numOkB_rbrace rest)]
        rfl
      | cons k2 v2 tl2 =>
        have h1 : dumpsMemsBody (JMems.cons k v (JMems.cons k2 v2 tl2)) ++
              rbrace :: rest =
            '"' :: (escStr k ++ '"' :: (':' :: (dumpsJ v ++
              ',' :: (dumpsMemsBody (JMems.cons k2 v2 tl2) ++ rbrace :: rest)))) := by
          simp [dumpsMemsBody, dumpKey]
        have h5 : needM (JMems.cons k v (JMems.cons k2 v2 tl2)) =
            max (needV v) (needM (JMems.cons k2 v2 tl2)) + 1 := by simp [needM]
        have hv : needV v ≤ f := by
          have h6 := Nat.le_max_left (needV v) (needM (JMems.cons k2 v2 tl2))
          omega
        have hm : needM (JMems.cons k2 v2 tl2) ≤ f := by
          have h6 := Nat.le_max_right (needV v) (needM (JMems.cons k2 v2 tl2))
          omega
        rw [h1, eM,
          parseStrBody_escStr k
            (':' :: (dumpsJ v ++
              ',' :: (dumpsMemsBody (JMems.cons k2 v2 tl2) ++ rbrace :: rest)))]
        simp only [ihV v
          (',' :: (dumpsMemsBody (JMems.cons k2 v2 tl2) ++ rbrace :: rest)) hv
          (numOkB_comma _)]
        simp only [ihM k2 v2 tl2 rest hm]

theorem json_sizeOf_pos (j : Json) : 1 ≤ sizeOf j := by
  cases j <;> simp <;> omega

theorem jarr_sizeOf_pos (xs : JArr) : 1 ≤ sizeOf xs := by
  cases xs <;> simp <;> omega

theorem jmems_sizeOf_pos (ms : JMems) : 1 ≤ sizeOf ms := by
  cases ms <;> simp <;> omega

theorem need_le_len (N : Nat) :
    (∀ j : Json, sizeOf j ≤ N → needV j ≤ (dumpsJ j).length) ∧
    (∀ x tl, sizeOf (JArr.cons x tl) ≤ N →
      needA (JArr.cons x tl) ≤ (dumpsArrBody (JArr.cons x tl)).length + 1) ∧
    (∀ k v tl, sizeOf (JMems.cons k v tl) ≤ N →
      needM (JMems.cons k v tl) ≤ (dumpsMemsBody (JMems.cons k v tl)).length + 1) := by
  induction N with
  | zero =>
    refine ⟨?_, ?_, ?_⟩
    · intro j h
      exact absurd h (by have := json_sizeOf_pos j; omega)
    · intro x tl h
      exact absurd h (by have h1 := json_sizeOf_pos x; simp at h; try omega)
    · intro k v tl h
      exact absurd h (by have h1 := json_sizeOf_pos v; simp at h; try omega)
  | succ N ih =>
    obtain ⟨ihV, ihA, ihM⟩ := ih
    refine ⟨?_, ?_, ?_⟩
    · intro j hsz
      cases j with
      | null => simp [needV, dumpsJ]
      | bool b => cases b <;> simp [needV, dumpsJ]
      | num i =>
        obtain ⟨c, cs, hc, _⟩ := dumpInt_head i
        simp [needV, dumpsJ, hc]
      | str s => simp [needV, dumpsJ]
      | arr xs =>
        cases xs with
        | nil => simp [needV, dumpsJ]
        | cons x tl =>
          have hsz2 : sizeOf (JArr.cons x tl) ≤ N := by
            simp at hsz; simp; try omega
          have h1 := ihA x tl hsz2
          simp only [needV, dumpsJ]
          simp only [List.length_cons, List.length_append, List.length_singleton]
          omega
      | obj ms =>
        cases ms with
        | nil => simp [needV, dumpsJ]
        | cons k v tl =>
          have hsz2 : sizeOf (JMems.cons k v tl) ≤ N := by
            simp at hsz; simp; try omega
          have h1 := ihM k v tl hsz2
          simp only [needV, dumpsJ]
          simp only [List.length_cons, List.length_append, List.length_singleton]
          omega
    · intro x tl hsz
      cases tl with
      | nil =>
        have hx : sizeOf x ≤ N := by
          simp at hsz; omega
        have h1 := ihV x hx
        simp only [needA, dumpsArrBody]
        omega
      | cons y tl2 =>
        have hx : sizeOf x ≤ N := by
          have hy := json_sizeOf_pos y
          have ht := jarr_sizeOf_pos tl2
          simp at hsz; omega
        have hyt : sizeOf (JArr.cons y tl2) ≤ N := by
          have hxp := json_sizeOf_pos x
          simp at hsz; simp; try omega
        have h1 := ihV x hx
        have h2 := ihA y tl2 hyt
        have h3 := Nat.max_le.mpr
          (⟨Nat.le_trans h1 (by simp [List.length_append]; try omega),
            Nat.le_trans h2 (by simp [List.length_append]; try omega)⟩ :
            needV x ≤ (dumpsJ x ++ ',' :: dumpsArrBody (JArr.cons y tl2)).length ∧
            needA (JArr.cons y tl2) ≤
              (dumpsJ x ++ ',' :: dumpsArrBody (JArr.cons y tl2)).length)
        simp only [needA, dumpsArrBody]
        omega
    · intro k v tl hsz
      cases tl with
      | nil =>
        have hv : sizeOf v ≤ N := by
          simp at hsz; omega
        have h1 := ihV v hv
        simp only [needM, dumpsMemsBody]
        simp only [List.length_append]
        omega
      | cons k2 v2 tl2 =>
        have hv : sizeOf v ≤ N := by
          have h4 := json_sizeOf_pos v2
          have ht := jmems_sizeOf_pos tl2
          simp at hsz; omega
        have hyt : sizeOf (JMems.cons k2 v2 tl2) ≤ N := by
          have hvp := json_sizeOf_pos v
          simp at hsz; simp; try omega
        have h1 := ihV v hv
        have h2 := ihM k2 v2 tl2 hyt
        have hb1 : needV v ≤
            (dumpKey k ++ dumpsJ v ++
              ',' :: dumpsMemsBody (JMems.cons k2 v2 tl2)).length := by
          simp [List.length_append]; omega
        have hb2 : needM (JMems.cons k2 v2 tl2) ≤
            (dumpKey k ++ dumpsJ v ++
              ',' :: dumpsMemsBody (JMems.cons k2 v2 tl2)).length := by
          simp [List.length_append]; omega
        have h3 := Nat.max_le.mpr ⟨hb1, hb2⟩
        simp only [needM, dumpsMemsBody]
        omega

/-- Round trip at the top level: the model of json.loads inverts the model
of json.dumps on every JSON value. -/
theorem loads_dumpsJ (j : Json) : loads (dumpsJ j) = some j := by
  have h1 : needV j ≤ (dumpsJ j).length + 1 := by
    have h2 := (need_le_len (sizeOf j)).1 j le_rfl
    omega
  have h2 : parseVal ((dumpsJ j).length + 1) (dumpsJ j ++ []) = some (j, []) :=
    (parseRound ((dumpsJ j).length + 1)).1 j [] h1 rfl
  rw [List.append_nil] at h2
  simp only [loads, h2]

/-! ## Helper lemmas: Python dict semantics -/

/-- Spine induction for JMems: the recursor generated for the mutual
inductive has several motives, so we provide the single-motive version the
dict lemmas need. -/
theorem JMems.spineInd {P : JMems → Prop} (h0 : P JMems.nil)
    (h1 : ∀ k v tl, P tl → P (JMems.cons k v tl)) : ∀ m, P m
  | JMems.nil => h0
  | JMems.cons k v tl => h1 k v tl (JMems.spineInd h0 h1 tl)

theorem memB_iff {k : List Char} {l : List (List Char)} :
    memB k l = true ↔ k ∈ l := by
  simp [memB, List.any_eq_true]

theorem keySetEqB_iff {a b : List (List Char)} :
    keySetEqB a b = true ↔ ∀ k, k ∈ a ↔ k ∈ b := by
  simp only [keySetEqB, Bool.and_eq_true, List.all_eq_true, memB_iff]
  constructor
  · rintro ⟨h1, h2⟩ k
    exact ⟨fun hk => h1 k hk, fun hk => h2 k hk⟩
  · intro h
    exact ⟨fun k hk => (h k).1 hk, fun k hk => (h k).2 hk⟩

theorem pyGet_mem {m : JMems} {k : List Char} (h : k ∈ keyList m) :
    ∃ v, pyGet m k = some v := by
  induction m using JMems.spineInd with
  | h0 => simp [keyList] at h
  | h1 k0 v0 tl ih =>
    by_cases hk : k0 = k
    · exact ⟨v0, by simp [pyGet, hk]⟩
    · have h2 : k ∈ keyList tl := by
        simp only [keyList, List.mem_cons] at h
        rcases h with h | h
        · exact absurd h.symm hk
        · exact h
      obtain ⟨v, hv⟩ := ih h2
      exact ⟨v, by simp [pyGet, hk, hv]⟩

theorem pyGet_some_mem {m : JMems} {k : List Char} {v : Json}
    (h : pyGet m k = some v) : k ∈ keyList m := by
  induction m using JMems.spineInd with
  | h0 => simp [pyGet] at h
  | h1 k0 v0 tl ih =>
    by_cases hk : k0 = k
    · simp [keyList, hk]
    · simp only [pyGet, if_neg hk] at h
      simp [keyList, ih h]

theorem memsAll_nodup_iff (p : List Char → Json → Bool) (m : JMems)
    (hm : (keyList m).Nodup) :
    memsAll p m = true ↔ ∀ k v, pyGet m k = some v → p k v = true := by
  induction m using JMems.spineInd with
  | h0 =>
    simp [memsAll, pyGet]
  | h1 k0 v0 tl ih =>
    simp only [keyList, List.nodup_cons] at hm
    obtain ⟨hk0, htl⟩ := hm
    simp only [memsAll, Bool.and_eq_true, ih htl]
    constructor
    · rintro ⟨hp, hall⟩ k v hget
      by_cases hk : k0 = k
      · rw [show pyGet (JMems.cons k0 v0 tl) k = some v0 from by simp [pyGet, hk]]
          at hget
        injection hget with hget
        rw [← hget, ← hk]
        exact hp
      · simp only [pyGet, if_neg hk] at hget
        exact hall k v hget
    · intro h
      refine ⟨h k0 v0 (by simp [pyGet]), ?_⟩
      intro k v hget
      have hmem := pyGet_some_mem hget
      have hk : k0 ≠ k := fun he => hk0 (he ▸ hmem)
      exact h k v (by simp [pyGet, if_neg hk, hget])

theorem dictEqB_true_iff {ex value : JMems} (hex : (keyList ex).Nodup) :
    dictEqB ex value = true ↔
      ((∀ k, k ∈ keyList ex ↔ k ∈ keyList value) ∧
        ∀ k, k ∈ keyList ex → pyGet ex k = pyGet value k) := by
  rw [dictEqB, Bool.and_eq_true, keySetEqB_iff, memsAll_nodup_iff _ ex hex]
  constructor
  · rintro ⟨hks, hall⟩
    refine ⟨hks, ?_⟩
    intro k hk
    obtain ⟨v, hv⟩ := pyGet_mem hk
    have h2 := hall k v hv
    cases h3 : pyGet value k with
    | none => rw [h3] at h2; simp at h2
    | some v2 =>
      rw [h3] at h2
      simp only [beq_iff_eq] at h2
      rw [hv, h2]
  · rintro ⟨hks, hvals⟩
    refine ⟨hks, ?_⟩
    intro k v hv
    have h2 := hvals k (pyGet_some_mem hv)
    rw [hv] at h2
    rw [← h2]
    simp

theorem dictEqB_false_iff {ex value : JMems} (hex : (keyList ex).Nodup) :
    dictEqB ex value = false ↔ dictDiffers ex value := by
  have hbool : dictEqB ex value = false ↔ ¬ dictEqB ex value = true := by simp
  rw [hbool, dictEqB_true_iff hex]
  simp only [dictDiffers]
  constructor
  · intro h
    by_cases h1 : ∀ k, k ∈ keyList ex ↔ k ∈ keyList value
    · right
      have h2 : ¬ ∀ k, k ∈ keyList ex → pyGet ex k = pyGet value k :=
        fun hc => h ⟨h1, hc⟩
      push_neg at h2
      exact h2
    · left; exact h1
  · rintro (h | ⟨k, hk, hne⟩) hc
    · exact h hc.1
    · exact hne (hc.2 k hk)

theorem dictEqB_self {v : JMems} (hv : (keyList v).Nodup) : dictEqB v v = true := by
  rw [dictEqB_true_iff hv]
  exact ⟨fun k => Iff.rfl, fun k _ => rfl⟩

theorem not_dictDiffers_self (v : JMems) : ¬ dictDiffers v v := by
  rintro (h | ⟨k, _, hne⟩)
  · exact h fun k => Iff.rfl
  · exact hne rfl

/-! ## Helper lemmas: the envelope -/

theorem indexData_envelope (d : Json) : indexData (envelope d) = Except.ok d := by
  simp [indexData, envelope, pyGet]

theorem loads_envWire (d : Json) : loads (envWire d) = some (envelope d) :=
  loads_dumpsJ (envelope d)

/-! ## The dedup loop of the principal's authentication_data setter -/

namespace ManilaPluginRequires

theorem freshOrDiffers_congr {s s2 : State} {sc : Scope} {value : JMems}
    (h : s2.localAuth sc = s.localAuth sc) :
    freshOrDiffers s2 sc value ↔ freshOrDiffers s sc value := by
  unfold freshOrDiffers storedDict
  rw [h]

theorem slotCheck_spec {s : State} {sc : Scope} (value : JMems)
    (hgood : GoodSlot s sc) :
    (slotCheck value (s.localAuth sc) = Except.ok true ∧
      freshOrDiffers s sc value) ∨
    (slotCheck value (s.localAuth sc) = Except.ok false ∧
      ¬ freshOrDiffers s sc value) := by
  cases hw : s.localAuth sc with
  | none =>
    left
    exact ⟨rfl, Or.inl hw⟩
  | some w =>
    obtain ⟨j, m, h1, h2, h3⟩ := hgood w hw
    have hsc : slotCheck value (some w) = Except.ok (!(dictEqB m value)) := by
      simp [slotCheck, h1, h2]
    by_cases hd : dictEqB m value = true
    · right
      refine ⟨by rw [hsc, hd]; rfl, ?_⟩
      rintro (hnone | ⟨m2, ⟨w2, j2, hw2, hl2, hi2⟩, hdiff⟩)
      · rw [hw] at hnone; cases hnone
      · rw [hw] at hw2
        injection hw2 with hw2
        subst hw2
        rw [h1] at hl2
        injection hl2 with hl2
        subst hl2
        rw [h2] at hi2
        injection hi2 with hi2
        injection hi2 with hi2
        subst hi2
        rw [← dictEqB_false_iff h3] at hdiff
        rw [hd] at hdiff
        cases hdiff
    · left
      have hdf : dictEqB m value = false := by
        cases hde : dictEqB m value
        · rfl
        · exact absurd hde hd
      refine ⟨by rw [hsc, hdf]; rfl, ?_⟩
      right
      exact ⟨m, ⟨w, j, hw, h1, h2⟩, (dictEqB_false_iff h3).mp hdf⟩

theorem writeAuth_local_same (sc : Scope) (env : Wire) (s : State) :
    (writeAuth sc env s).localAuth sc = some env := by
  simp [writeAuth]

theorem writeAuth_remote_same (sc : Scope) (env : Wire) (s : State) :
    (writeAuth sc env s).remoteAuth sc = some env := by
  simp [writeAuth]

theorem writeAuth_local_other {sc sc2 : Scope} (env : Wire) (s : State)
    (h : sc2 ≠ sc) : (writeAuth sc env s).localAuth sc2 = s.localAuth sc2 := by
  simp [writeAuth, h]

theorem writeAuth_remote_other {sc sc2 : Scope} (env : Wire) (s : State)
    (h : sc2 ≠ sc) : (writeAuth sc env s).remoteAuth sc2 = s.remoteAuth sc2 := by
  simp [writeAuth, h]

theorem authLoop_spec (value : JMems) (env : Wire) :
    ∀ (scopes : List Scope) (s : State),
      scopes.Nodup → (∀ sc ∈ scopes, GoodSlot s sc) →
      ((authLoop value env scopes s).2.2 = none ∧
       (∀ sc, sc ∈ (authLoop value env scopes s).2.1 ↔
         sc ∈ scopes ∧ freshOrDiffers s sc value) ∧
       (∀ sc, sc ∈ scopes → freshOrDiffers s sc value →
         (authLoop value env scopes s).1.localAuth sc = some env ∧
         (authLoop value env scopes s).1.remoteAuth sc = some env) ∧
       (∀ sc, (sc ∈ scopes → ¬ freshOrDiffers s sc value) →
         (authLoop value env scopes s).1.localAuth sc = s.localAuth sc ∧
         (authLoop value env scopes s).1.remoteAuth sc = s.remoteAuth sc)) := by
  intro scopes
  induction scopes with
  | nil =>
    intro s _ _
    refine ⟨by simp [authLoop], ?_, ?_, ?_⟩
    · intro sc; simp [authLoop]
    · intro sc h; simp at h
    · intro sc _; constructor <;> simp [authLoop]
  | cons sc0 rest ih =>
    intro s hnd hgood
    simp only [List.nodup_cons] at hnd
    obtain ⟨hsc0, hndr⟩ := hnd
    have hg0 : GoodSlot s sc0 := hgood sc0 (by simp)
    rcases slotCheck_spec value hg0 with ⟨hchk, hfod⟩ | ⟨hchk, hfod⟩
    · have hstep : authLoop value env (sc0 :: rest) s =
          ((authLoop value env rest (writeAuth sc0 env s)).1,
           sc0 :: (authLoop value env rest (writeAuth sc0 env s)).2.1,
           (authLoop value env rest (writeAuth sc0 env s)).2.2) := by
        simp [authLoop, hchk]
      have hloc : ∀ sc, sc ≠ sc0 →
          (writeAuth sc0 env s).localAuth sc = s.localAuth sc :=
        fun sc h => writeAuth_local_other env s h
      have hrem : ∀ sc, sc ≠ sc0 →
          (writeAuth sc0 env s).remoteAuth sc = s.remoteAuth sc :=
        fun sc h => writeAuth_remote_other env s h
      have hgood2 : ∀ sc ∈ rest, GoodSlot (writeAuth sc0 env s) sc := by
        intro sc hsc w hw
        have hne : sc ≠ sc0 := fun he => hsc0 (he ▸ hsc)
        rw [hloc sc hne] at hw
        exact hgood sc (by simp [hsc]) w hw
      have hcong : ∀ sc ∈ rest,
          (freshOrDiffers (writeAuth sc0 env s) sc value ↔
            freshOrDiffers s sc value) := by
        intro sc hsc
        exact freshOrDiffers_congr (hloc sc (fun he => hsc0 (he ▸ hsc)))
      obtain ⟨ihE, ihW, ihSet, ihKeep⟩ := ih (writeAuth sc0 env s) hndr hgood2
      rw [hstep]
      refine ⟨ihE, ?_, ?_, ?_⟩
      · intro sc
        simp only [List.mem_cons]
        constructor
        · rintro (he | hmem)
          · subst he; exact ⟨Or.inl rfl, hfod⟩
          · have h2 := (ihW sc).mp hmem
            exact ⟨Or.inr h2.1, (hcong sc h2.1).mp h2.2⟩
        · rintro ⟨(he | hmem), hf⟩
          · exact Or.inl he
          · exact Or.inr ((ihW sc).mpr ⟨hmem, (hcong sc hmem).mpr hf⟩)
      · intro sc hmem hf
        rcases List.mem_cons.mp hmem with he | hmem2
        · subst he
          have h2 := ihKeep sc (fun hin => absurd hin hsc0)
          exact ⟨h2.1.trans (writeAuth_local_same sc env s),
            h2.2.trans (writeAuth_remote_same sc env s)⟩
        · exact ihSet sc hmem2 ((hcong sc hmem2).mpr hf)
      · intro sc hcond
        by_cases he : sc = sc0
        · subst he
          exact absurd hfod (hcond (by simp))
        · have h2 := ihKeep sc
            (fun hin hf2 => (hcond (by simp [hin])) ((hcong sc hin).mp hf2))
          exact ⟨h2.1.trans (hloc sc he), h2.2.trans (hrem sc he)⟩
    · have hstep : authLoop value env (sc0 :: rest) s =
          authLoop value env rest s := by
        simp [authLoop, hchk]
      have hgood2 : ∀ sc ∈ rest, GoodSlot s sc :=
        fun sc hsc => hgood sc (by simp [hsc])
      obtain ⟨ihE, ihW, ihSet, ihKeep⟩ := ih s hndr hgood2
      rw [hstep]
      refine ⟨ihE, ?_, ?_, ?_⟩
      · intro sc
        rw [ihW sc]
        simp only [List.mem_cons]
        constructor
        · rintro ⟨hmem, hf⟩; exact ⟨Or.inr hmem, hf⟩
        · rintro ⟨(he | hmem), hf⟩
          · subst he; exact absurd hf hfod
          · exact ⟨hmem, hf⟩
      · intro sc hmem hf
        rcases List.mem_cons.mp hmem with he | hmem2
        · subst he; exact absurd hf hfod
        · exact ihSet sc hmem2 hf
      · intro sc hcond
        exact ihKeep sc (fun hin => hcond (by simp [hin]))

end ManilaPluginRequires

namespace ManilaPluginRequires

theorem authLoop_preserves (value : JMems) (env : Wire) :
    ∀ (scopes : List Scope) (s : State),
      (authLoop value env scopes s).1.connected = s.connected ∧
      (authLoop value env scopes s).1.available = s.available ∧
      (authLoop value env scopes s).1.changed = s.changed ∧
      (authLoop value env scopes s).1.nameIn = s.nameIn ∧
      (authLoop value env scopes s).1.configIn = s.configIn ∧
      (authLoop value env scopes s).1.convs = s.convs := by
  intro scopes
  induction scopes with
  | nil =>
    intro s
    refine ⟨?_, ?_, ?_, ?_, ?_, ?_⟩ <;> simp [authLoop]
  | cons sc0 rest ih =>
    intro s
    cases hchk : slotCheck value (s.localAuth sc0) with
    | error e =>
      have hstep : authLoop value env (sc0 :: rest) s = (s, [], some e) := by
        simp [authLoop, hchk]
      rw [hstep]
      exact ⟨rfl, rfl, rfl, rfl, rfl, rfl⟩
    | ok b =>
      cases b
      · have hstep : authLoop value env (sc0 :: rest) s =
            authLoop value env rest s := by
          simp [authLoop, hchk]
        rw [hstep]
        exact ih s
      · have hstep : authLoop value env (sc0 :: rest) s =
            ((authLoop value env rest (writeAuth sc0 env s)).1,
             sc0 :: (authLoop value env rest (writeAuth sc0 env s)).2.1,
             (authLoop value env rest (writeAuth sc0 env s)).2.2) := by
          simp [authLoop, hchk]
        rw [hstep]
        simpa [writeAuth] using ih (writeAuth sc0 env s)

theorem authLoop_mirror (value : JMems) (env : Wire) :
    ∀ (scopes : List Scope) (s : State),
      (∀ sc, s.localAuth sc = s.remoteAuth sc) →
      ∀ sc, (authLoop value env scopes s).1.localAuth sc =
        (authLoop value env scopes s).1.remoteAuth sc := by
  intro scopes
  induction scopes with
  | nil =>
    intro s h sc
    simpa [authLoop] using h sc
  | cons sc0 rest ih =>
    intro s h sc
    cases hchk : slotCheck value (s.localAuth sc0) with
    | error e =>
      have hstep : authLoop value env (sc0 :: rest) s = (s, [], some e) := by
        simp [authLoop, hchk]
      rw [hstep]
      exact h sc
    | ok b =>
      cases b
      · have hstep : authLoop value env (sc0 :: rest) s =
            authLoop value env rest s := by
          simp [authLoop, hchk]
        rw [hstep]
        exact ih s h sc
      · have hstep : authLoop value env (sc0 :: rest) s =
            ((authLoop value env rest (writeAuth sc0 env s)).1,
             sc0 :: (authLoop value env rest (writeAuth sc0 env s)).2.1,
             (authLoop value env rest (writeAuth sc0 env s)).2.2) := by
          simp [authLoop, hchk]
        rw [hstep]
        refine ih (writeAuth sc0 env s) ?_ sc
        intro sc2
        by_cases he : sc2 = sc0
        · subst he
          rw [writeAuth_local_same, writeAuth_remote_same]
        · rw [writeAuth_local_other env s he, writeAuth_remote_other env s he]
          exact h sc2

theorem authLoop_writes_all (value : JMems) (env : Wire) :
    ∀ (scopes : List Scope) (s : State),
      scopes.Nodup → (∀ sc ∈ scopes, GoodSlot s sc) →
      (∀ sc ∈ scopes, freshOrDiffers s sc value) →
      (authLoop value env scopes s).2.1 = scopes := by
  intro scopes
  induction scopes with
  | nil =>
    intro s _ _ _
    simp [authLoop]
  | cons sc0 rest ih =>
    intro s hnd hgood hfodall
    simp only [List.nodup_cons] at hnd
    obtain ⟨hsc0, hndr⟩ := hnd
    rcases slotCheck_spec value (hgood sc0 (by simp)) with ⟨hchk, _⟩ | ⟨_, hnf⟩
    · have hstep : authLoop value env (sc0 :: rest) s =
          ((authLoop value env rest (writeAuth sc0 env s)).1,
           sc0 :: (authLoop value env rest (writeAuth sc0 env s)).2.1,
           (authLoop value env rest (writeAuth sc0 env s)).2.2) := by
        simp [authLoop, hchk]
      have hgood2 : ∀ sc ∈ rest, GoodSlot (writeAuth sc0 env s) sc := by
        intro sc hsc w hw
        have hne : sc ≠ sc0 := fun he => hsc0 (he ▸ hsc)
        rw [writeAuth_local_other env s hne] at hw
        exact hgood sc (by simp [hsc]) w hw
      have hfod2 : ∀ sc ∈ rest, freshOrDiffers (writeAuth sc0 env s) sc value := by
        intro sc hsc
        have hne : sc ≠ sc0 := fun he => hsc0 (he ▸ hsc)
        exact (freshOrDiffers_congr (writeAuth_local_other env s hne)).mpr
          (hfodall sc (by simp [hsc]))
      rw [hstep]
      simp only []
      rw [ih (writeAuth sc0 env s) hndr hgood2 hfod2]
    · exact absurd (hfodall sc0 (by simp)) hnf

theorem GoodStored_env {v : JMems} (hv : (keyList v).Nodup) :
    GoodStored (envWire (Json.obj v)) :=
  ⟨envelope (Json.obj v), v, loads_envWire (Json.obj v),
    indexData_envelope (Json.obj v), hv⟩

theorem not_fod_at_env {s : State} {sc : Scope} {v : JMems}
    (h : s.localAuth sc = some (envWire (Json.obj v))) :
    ¬ freshOrDiffers s sc v := by
  rintro (hnone | ⟨m, ⟨w, j, hw, hl, hi⟩, hdiff⟩)
  · rw [h] at hnone; cases hnone
  · rw [h] at hw
    injection hw with hw
    subst hw
    rw [loads_envWire] at hl
    injection hl with hl
    subst hl
    rw [indexData_envelope] at hi
    injection hi with hi
    injection hi with hi
    subst hi
    exact not_dictDiffers_self v hdiff

theorem fod_at_env {s : State} {sc : Scope} {v v2 : JMems}
    (h : s.localAuth sc = some (envWire (Json.obj v))) (hd : dictDiffers v v2) :
    freshOrDiffers s sc v2 :=
  Or.inr ⟨v, ⟨_, _, h, loads_envWire _, indexData_envelope _⟩, hd⟩

theorem set_auth_def (v : JMems) (s : State) :
    authentication_data_set v s =
      { state := (authLoop v (envWire (Json.obj v)) s.convs s).1,
        writes := (authLoop v (envWire (Json.obj v)) s.convs s).2.1,
        err := (authLoop v (envWire (Json.obj v)) s.convs s).2.2,
        warned := !(keySetEqB (keyList v) authKeys) } := rfl

theorem set_auth_WF {s : State} {v : JMems} (hwf : WF s)
    (hv : (keyList v).Nodup) : WF (authentication_data_set v s).state := by
  obtain ⟨hnd, hgood⟩ := hwf
  obtain ⟨hE, hW, hSet, hKeep⟩ :=
    authLoop_spec v (envWire (Json.obj v)) s.convs s hnd hgood
  have hpres := authLoop_preserves v (envWire (Json.obj v)) s.convs s
  rw [set_auth_def]
  constructor
  · rw [hpres.2.2.2.2.2]
    exact hnd
  · intro sc hsc
    rw [hpres.2.2.2.2.2] at hsc
    by_cases hf : freshOrDiffers s sc v
    · intro w hw
      rw [(hSet sc hsc hf).1] at hw
      injection hw with hw
      rw [← hw]
      exact GoodStored_env hv
    · intro w hw
      rw [(hKeep sc (fun _ => hf)).1] at hw
      exact hgood sc hsc w hw

end ManilaPluginRequires

/-! ## Claim C1 -/

/-- C1: for every session, setAuthenticationData(value) performs a
transport write (set_local and set_remote of the serialized envelope) for
that session if and only if no authentication payload was previously
stored locally for that session, or the previously stored payload differs
from value in its key set or in at least one key's value.  Hence calling
it twice in succession with identical v produces exactly one write per
session (all sessions written on the first call from a fresh store, none
on the second), and calling it with v1 then v2 where the dicts differ
produces two writes per session.  The hypotheses say that the state is
reachable (distinct conversation scopes, every stored payload is a
serialized envelope of a dict) and that value is a Python dict (no
duplicate keys). -/
theorem c1_set_auth_dedup_writes (s : ManilaPluginRequires.State) (v : JMems)
    (hwf : ManilaPluginRequires.WF s) (hv : (keyList v).Nodup) :
    (ManilaPluginRequires.authentication_data_set v s).err = none ∧
    (∀ sc, sc ∈ (ManilaPluginRequires.authentication_data_set v s).writes ↔
      sc ∈ s.convs ∧ ManilaPluginRequires.freshOrDiffers s sc v) ∧
    (ManilaPluginRequires.authentication_data_set v
      (ManilaPluginRequires.authentication_data_set v s).state).writes = [] ∧
    ((∀ sc ∈ s.convs, s.localAuth sc = none) →
      (ManilaPluginRequires.authentication_data_set v s).writes = s.convs ∧
      ∀ sc ∈ s.convs,
        (ManilaPluginRequires.authentication_data_set v s).writes.count sc = 1) ∧
    (∀ v2 : JMems, (keyList v2).Nodup → dictDiffers v v2 →
      (∀ sc ∈ s.convs, s.localAuth sc = none) →
      (ManilaPluginRequires.authentication_data_set v2
        (ManilaPluginRequires.authentication_data_set v s).state).writes =
        s.convs) := by
  obtain ⟨hnd, hgood⟩ := hwf
  obtain ⟨hE, hW, hSet, hKeep⟩ :=
    ManilaPluginRequires.authLoop_spec v (envWire (Json.obj v)) s.convs s hnd hgood
  have hpres :=
    ManilaPluginRequires.authLoop_preserves v (envWire (Json.obj v)) s.convs s
  have hstate : (ManilaPluginRequires.authentication_data_set v s).state =
      (ManilaPluginRequires.authLoop v (envWire (Json.obj v)) s.convs s).1 := rfl
  have hconv1 : (ManilaPluginRequires.authentication_data_set v s).state.convs =
      s.convs := by
    rw [hstate]; exact hpres.2.2.2.2.2
  have hwf1 : ManilaPluginRequires.WF
      (ManilaPluginRequires.authentication_data_set v s).state :=
    ManilaPluginRequires.set_auth_WF ⟨hnd, hgood⟩ hv
  refine ⟨hE, hW, ?_, ?_, ?_⟩
  · -- second identical call: no write for any session
    obtain ⟨hnd1, hgood1⟩ := hwf1
    obtain ⟨_, hW2, _, _⟩ :=
      ManilaPluginRequires.authLoop_spec v (envWire (Json.obj v))
        (ManilaPluginRequires.authentication_data_set v s).state.convs
        (ManilaPluginRequires.authentication_data_set v s).state hnd1 hgood1
    rw [List.eq_nil_iff_forall_not_mem]
    intro sc hmem
    have h2 := (hW2 sc).mp hmem
    rw [hconv1] at h2
    obtain ⟨hsc, hf1⟩ := h2
    by_cases hf : ManilaPluginRequires.freshOrDiffers s sc v
    · have h3 := (hSet sc hsc hf).1
      rw [← hstate] at h3
      exact ManilaPluginRequires.not_fod_at_env h3 hf1
    · have h3 := (hKeep sc (fun _ => hf)).1
      rw [← hstate] at h3
      exact hf ((ManilaPluginRequires.freshOrDiffers_congr h3).mp hf1)
  · -- first call from a fresh store writes every session exactly once
    intro hfresh
    have hfodall : ∀ sc ∈ s.convs, ManilaPluginRequires.freshOrDiffers s sc v :=
      fun sc hsc => Or.inl (hfresh sc hsc)
    have hall := ManilaPluginRequires.authLoop_writes_all v (envWire (Json.obj v))
      s.convs s hnd hgood hfodall
    refine ⟨hall, ?_⟩
    intro sc hsc
    rw [show (ManilaPluginRequires.authentication_data_set v s).writes = s.convs
      from hall]
    exact List.count_eq_one_of_mem hnd hsc
  · -- a second call with a differing dict writes every session again
    intro v2 hv2 hdiff hfresh
    obtain ⟨hnd1, hgood1⟩ := hwf1
    have henv : ∀ sc ∈ s.convs,
        (ManilaPluginRequires.authentication_data_set v s).state.localAuth sc =
          some (envWire (Json.obj v)) := by
      intro sc hsc
      have h3 := (hSet sc hsc (Or.inl (hfresh sc hsc))).1
      rw [← hstate] at h3
      exact h3
    have hfodall : ∀ sc ∈
        (ManilaPluginRequires.authentication_data_set v s).state.convs,
        ManilaPluginRequires.freshOrDiffers
          (ManilaPluginRequires.authentication_data_set v s).state sc v2 := by
      intro sc hsc
      rw [hconv1] at hsc
      exact ManilaPluginRequires.fod_at_env (henv sc hsc) hdiff
    have hall := ManilaPluginRequires.authLoop_writes_all v2
      (envWire (Json.obj v2))
      (ManilaPluginRequires.authentication_data_set v s).state.convs
      (ManilaPluginRequires.authentication_data_set v s).state hnd1 hgood1 hfodall
    calc (ManilaPluginRequires.authentication_data_set v2
            (ManilaPluginRequires.authentication_data_set v s).state).writes
        = (ManilaPluginRequires.authentication_data_set v s).state.convs := hall
      _ = s.convs := hconv1

/-- Witness for C1: one fresh session with scope 0, and the dict with the
single key "a".  The hypotheses hold, the call raises nothing, writes the
one session once, and an identical second call writes nothing. -/
theorem c1_set_auth_dedup_writes_witness :
    (ManilaPluginRequires.WF
        ⟨false, false, false, none, none, [0], fun _ => none, fun _ => none⟩ ∧
      (keyList (JMems.cons ['a'] Json.null JMems.nil)).Nodup) ∧
    (ManilaPluginRequires.authentication_data_set
      (JMems.cons ['a'] Json.null JMems.nil)
      ⟨false, false, false, none, none, [0], fun _ => none, fun _ => none⟩).err =
        none ∧
    (ManilaPluginRequires.authentication_data_set
      (JMems.cons ['a'] Json.null JMems.nil)
      ⟨false, false, false, none, none, [0], fun _ => none,
        fun _ => none⟩).writes = [0] ∧
    (ManilaPluginRequires.authentication_data_set
      (JMems.cons ['a'] Json.null JMems.nil)
      (ManilaPluginRequires.authentication_data_set
        (JMems.cons ['a'] Json.null JMems.nil)
        ⟨false, false, false, none, none, [0], fun _ => none,
          fun _ => none⟩).state).writes = [] := by
  have hwf : ManilaPluginRequires.WF
      ⟨false, false, false, none, none, [0], fun _ => none, fun _ => none⟩ := by
    constructor
    · simp
    · intro sc _ w hw
      cases hw
  have hv : (keyList (JMems.cons ['a'] Json.null JMems.nil)).Nodup := by
    simp [keyList]
  obtain ⟨h1, _, h3, h4, _⟩ := c1_set_auth_dedup_writes
    ⟨false, false, false, none, none, [0], fun _ => none, fun _ => none⟩
    (JMems.cons ['a'] Json.null JMems.nil) hwf hv
  have hfresh : ∀ sc ∈
      (⟨false, false, false, none, none, [0], fun _ => none, fun _ => none⟩ :
        ManilaPluginRequires.State).convs,
      (⟨false, false, false, none, none, [0], fun _ => none, fun _ => none⟩ :
        ManilaPluginRequires.State).localAuth sc = none := fun _ _ => rfl
  exact ⟨⟨hwf, hv⟩, h1, (h4 hfresh).1, h3⟩

/-! ## Claim C7 -/

/-- C7: for every input value whose key set is not exactly the eight
expected authentication fields, setAuthenticationData logs a warning but
does not reject the value: the state, writes and raised components are
exactly those of the per-session dedup-write loop, which never consults
the key-set check, and a session with nothing stored still receives the
mismatched record both in its dedup-checked write list and in the
remote-visible slot. -/
theorem c7_keyset_mismatch_nonfatal (s : ManilaPluginRequires.State) (v : JMems)
    (hwf : ManilaPluginRequires.WF s)
    (hmis : keySetEqB (keyList v) ManilaPluginRequires.authKeys = false) :
    (ManilaPluginRequires.authentication_data_set v s).warned = true ∧
    (ManilaPluginRequires.authentication_data_set v s).err = none ∧
    ((ManilaPluginRequires.authentication_data_set v s).state =
        (ManilaPluginRequires.authLoop v (envWire (Json.obj v)) s.convs s).1 ∧
      (ManilaPluginRequires.authentication_data_set v s).writes =
        (ManilaPluginRequires.authLoop v (envWire (Json.obj v)) s.convs s).2.1) ∧
    (∀ sc ∈ s.convs, s.localAuth sc = none →
      sc ∈ (ManilaPluginRequires.authentication_data_set v s).writes ∧
      (ManilaPluginRequires.authentication_data_set v s).state.remoteAuth sc =
        some (envWire (Json.obj v))) := by
  obtain ⟨hnd, hgood⟩ := hwf
  obtain ⟨hE, hW, hSet, _⟩ :=
    ManilaPluginRequires.authLoop_spec v (envWire (Json.obj v)) s.convs s hnd hgood
  refine ⟨?_, hE, ⟨rfl, rfl⟩, ?_⟩
  · rw [ManilaPluginRequires.set_auth_def, hmis]
    rfl
  · intro sc hsc hnone
    refine ⟨(hW sc).mpr ⟨hsc, Or.inl hnone⟩, ?_⟩
    exact (hSet sc hsc (Or.inl hnone)).2

/-- Witness for C7: one fresh session and the one-key dict with key "a",
whose key set differs from the expected eight; the warning fires and the
session still receives the record. -/
theorem c7_keyset_mismatch_nonfatal_witness :
    (ManilaPluginRequires.WF
        ⟨false, false, false, none, none, [0], fun _ => none, fun _ => none⟩ ∧
      keySetEqB (keyList (JMems.cons ['a'] Json.null JMems.nil))
        ManilaPluginRequires.authKeys = false) ∧
    (ManilaPluginRequires.authentication_data_set
      (JMems.cons ['a'] Json.null JMems.nil)
      ⟨false, false, false, none, none, [0], fun _ => none,
        fun _ => none⟩).warned = true ∧
    (ManilaPluginRequires.authentication_data_set
      (JMems.cons ['a'] Json.null JMems.nil)
      ⟨false, false, false, none, none, [0], fun _ => none,
        fun _ => none⟩).err = none ∧
    (ManilaPluginRequires.authentication_data_set
      (JMems.cons ['a'] Json.null JMems.nil)
      ⟨false, false, false, none, none, [0], fun _ => none,
        fun _ => none⟩).state.remoteAuth 0 =
      some (envWire (Json.obj (JMems.cons ['a'] Json.null JMems.nil))) := by
  have hwf : ManilaPluginRequires.WF
      ⟨false, false, false, none, none, [0], fun _ => none, fun _ => none⟩ := by
    constructor
    · simp
    · intro sc _ w hw
      cases hw
  have hmis : keySetEqB (keyList (JMems.cons ['a'] Json.null JMems.nil))
      ManilaPluginRequires.authKeys = false := by decide
  obtain ⟨h1, h2, _, h4⟩ := c7_keyset_mismatch_nonfatal
    ⟨false, false, false, none, none, [0], fun _ => none, fun _ => none⟩
    (JMems.cons ['a'] Json.null JMems.nil) hwf hmis
  exact ⟨⟨hwf, hmis⟩, h1, h2, (h4 0 (by simp) rfl).2⟩

/-! ## Claim C8 (corrected) -/

/-- C8 as stated is false on the code: a decode failure while processing
one session aborts the whole loop.  Concretely, with sessions 0 and 1
where session 0 holds the undecodable stored payload "x" and session 1
holds nothing, the setter raises ValueError (json.loads sits outside any
try block), performs no write, and session 1 — which the claim promises a
dedup check and a write — is left untouched. -/
theorem c8_decode_failure_aborts_counterexample :
    (⟨false, false, false, none, none, [0, 1],
        fun sc => if sc = 0 then some ['x'] else none, fun _ => none⟩ :
      ManilaPluginRequires.State).localAuth 1 = none ∧
    (ManilaPluginRequires.authentication_data_set
      (JMems.cons ['a'] Json.null JMems.nil)
      ⟨false, false, false, none, none, [0, 1],
        fun sc => if sc = 0 then some ['x'] else none, fun _ => none⟩).err =
      some PyErr.valueError ∧
    (ManilaPluginRequires.authentication_data_set
      (JMems.cons ['a'] Json.null JMems.nil)
      ⟨false, false, false, none, none, [0, 1],
        fun sc => if sc = 0 then some ['x'] else none, fun _ => none⟩).writes =
      [] ∧
    (ManilaPluginRequires.authentication_data_set
      (JMems.cons ['a'] Json.null JMems.nil)
      ⟨false, false, false, none, none, [0, 1],
        fun sc => if sc = 0 then some ['x'] else none,
        fun _ => none⟩).state.remoteAuth 1 = none := by
  refine ⟨rfl, ?_, ?_, ?_⟩ <;> decide

/-- C8 amended: only a ValueError raised while FETCHING a session's stored
payload is contained (get_local sits in try/except and its failure is
treated as no stored data, so the session is still written); an error
while DECODING a stored payload propagates and aborts the remaining
sessions.  Consequently fault containment across sessions holds exactly
on the well-formed stores the endpoint itself produces: there no failure
is raised and every session gets its dedup check and, if its data
differs, its write. -/
theorem c8_session_fault_containment_amended
    (s : ManilaPluginRequires.State) (v : JMems)
    (hwf : ManilaPluginRequires.WF s) :
    (ManilaPluginRequires.authentication_data_set v s).err = none ∧
    ∀ sc ∈ s.convs,
      (ManilaPluginRequires.freshOrDiffers s sc v →
        sc ∈ (ManilaPluginRequires.authentication_data_set v s).writes ∧
        (ManilaPluginRequires.authentication_data_set v s).state.remoteAuth sc =
          some (envWire (Json.obj v))) ∧
      (¬ ManilaPluginRequires.freshOrDiffers s sc v →
        sc ∉ (ManilaPluginRequires.authentication_data_set v s).writes) := by
  obtain ⟨hnd, hgood⟩ := hwf
  obtain ⟨hE, hW, hSet, _⟩ :=
    ManilaPluginRequires.authLoop_spec v (envWire (Json.obj v)) s.convs s hnd hgood
  refine ⟨hE, ?_⟩
  intro sc hsc
  constructor
  · intro hf
    exact ⟨(hW sc).mpr ⟨hsc, hf⟩, (hSet sc hsc hf).2⟩
  · intro hnf hmem
    exact hnf ((hW sc).mp hmem).2

/-- Witness for the amended C8: two fresh sessions; the call raises
nothing and both sessions are written. -/
theorem c8_session_fault_containment_amended_witness :
    ManilaPluginRequires.WF
      ⟨false, false, false, none, none, [0, 1], fun _ => none, fun _ => none⟩ ∧
    (ManilaPluginRequires.authentication_data_set
      (JMems.cons ['a'] Json.null JMems.nil)
      ⟨false, false, false, none, none, [0, 1], fun _ => none,
        fun _ => none⟩).err = none ∧
    (0 ∈ (ManilaPluginRequires.authentication_data_set
      (JMems.cons ['a'] Json.null JMems.nil)
      ⟨false, false, false, none, none, [0, 1], fun _ => none,
        fun _ => none⟩).writes ∧
     1 ∈ (ManilaPluginRequires.authentication_data_set
      (JMems.cons ['a'] Json.null JMems.nil)
      ⟨false, false, false, none, none, [0, 1], fun _ => none,
        fun _ => none⟩).writes) := by
  have hwf : ManilaPluginRequires.WF
      ⟨false, false, false, none, none, [0, 1], fun _ => none, fun _ => none⟩ := by
    constructor
    · simp
    · intro sc _ w hw
      cases hw
  obtain ⟨h1, h2⟩ := c8_session_fault_containment_amended
    ⟨false, false, false, none, none, [0, 1], fun _ => none, fun _ => none⟩
    (JMems.cons ['a'] Json.null JMems.nil) hwf
  exact ⟨hwf, h1,
    ((h2 0 (by simp)).1 (Or.inl rfl)).1,
    ((h2 1 (by simp)).1 (Or.inl rfl)).1⟩

/-! ## Step lemmas for the reactive flags (principal side) -/

namespace ManilaPluginRequires

theorem update_status_inv (s : State) (h : s.changed = true → s.available = true) :
    (update_status s).changed = true → (update_status s).available = true := by
  unfold update_status
  split
  · intro _; rfl
  · exact h

theorem update_status_available_mono (s : State) (h : s.available = true) :
    (update_status s).available = true := by
  unfold update_status
  split
  · rfl
  · exact h

theorem update_status_changed_mono (s : State) (h : s.changed = true) :
    (update_status s).changed = true := by
  unfold update_status
  split
  · rfl
  · exact h

theorem setAuth_flags (v : JMems) (s : State) :
    (rstep (ROp.setAuth v) s).connected = s.connected ∧
    (rstep (ROp.setAuth v) s).available = s.available ∧
    (rstep (ROp.setAuth v) s).changed = s.changed := by
  have hp := authLoop_preserves v (envWire (Json.obj v)) s.convs s
  exact ⟨hp.1, hp.2.1, hp.2.2.1⟩

theorem rstep_inv_CA (op : ROp) (s : State)
    (h : s.changed = true → s.available = true) :
    (rstep op s).changed = true → (rstep op s).available = true := by
  cases op with
  | joined => exact update_status_inv { s with connected := true } h
  | changedHook => exact update_status_inv s h
  | updateStatus => exact update_status_inv s h
  | departed => intro hc; exact absurd hc (by simp [rstep, departed])
  | clearChanged => intro hc; exact absurd hc (by simp [rstep, clear_changed])
  | recvName w => exact h
  | recvConfig w => exact h
  | addConv sc => exact h
  | dropConv sc => exact h
  | setAuth v =>
    intro hc
    have hf := setAuth_flags v s
    rw [hf.2.2] at hc
    rw [hf.2.1]
    exact h hc

theorem runR_inv_CA (ops : List ROp) :
    ∀ s : State, (s.changed = true → s.available = true) →
      (runR ops s).changed = true → (runR ops s).available = true := by
  induction ops with
  | nil => intro s h; exact h
  | cons op rest ih => intro s h; exact ih (rstep op s) (rstep_inv_CA op s h)

theorem rstep_available_mono (op : ROp) (s : State) (hop : op ≠ ROp.departed)
    (h : s.available = true) : (rstep op s).available = true := by
  cases op with
  | joined => exact update_status_available_mono { s with connected := true } h
  | changedHook => exact update_status_available_mono s h
  | updateStatus => exact update_status_available_mono s h
  | departed => exact absurd rfl hop
  | clearChanged => exact h
  | recvName w => exact h
  | recvConfig w => exact h
  | addConv sc => exact h
  | dropConv sc => exact h
  | setAuth v =>
    rw [(setAuth_flags v s).2.1]
    exact h

theorem runR_available_mono (ops : List ROp) :
    ∀ s : State, s.available = true → (∀ op ∈ ops, op ≠ ROp.departed) →
      (runR ops s).available = true := by
  induction ops with
  | nil => intro s h _; exact h
  | cons op rest ih =>
    intro s h hops
    exact ih (rstep op s) (rstep_available_mono op s (hops op (by simp)) h)
      (fun op2 h2 => hops op2 (by simp [h2]))

theorem rstep_changed_mono (op : ROp) (s : State) (h1 : op ≠ ROp.clearChanged)
    (h2 : op ≠ ROp.departed) (hc : s.changed = true) :
    (rstep op s).changed = true := by
  cases op with
  | joined => exact update_status_changed_mono { s with connected := true } hc
  | changedHook => exact update_status_changed_mono s hc
  | updateStatus => exact update_status_changed_mono s hc
  | departed => exact absurd rfl h2
  | clearChanged => exact absurd rfl h1
  | recvName w => exact hc
  | recvConfig w => exact hc
  | addConv sc => exact hc
  | dropConv sc => exact hc
  | setAuth v =>
    rw [(setAuth_flags v s).2.2]
    exact hc

theorem update_status_store (s : State) :
    (update_status s).localAuth = s.localAuth ∧
    (update_status s).remoteAuth = s.remoteAuth := by
  unfold update_status
  split
  · exact ⟨rfl, rfl⟩
  · exact ⟨rfl, rfl⟩

theorem rstep_mirror (op : ROp) (s : State)
    (h : ∀ sc, s.localAuth sc = s.remoteAuth sc) :
    ∀ sc, (rstep op s).localAuth sc = (rstep op s).remoteAuth sc := by
  cases op with
  | joined =>
    intro sc
    show (update_status { s with connected := true }).localAuth sc =
      (update_status { s with connected := true }).remoteAuth sc
    rw [(update_status_store { s with connected := true }).1,
      (update_status_store { s with connected := true }).2]
    exact h sc
  | changedHook =>
    intro sc
    show (update_status s).localAuth sc = (update_status s).remoteAuth sc
    rw [(update_status_store s).1, (update_status_store s).2]
    exact h sc
  | updateStatus =>
    intro sc
    show (update_status s).localAuth sc = (update_status s).remoteAuth sc
    rw [(update_status_store s).1, (update_status_store s).2]
    exact h sc
  | departed => exact h
  | clearChanged => exact h
  | recvName w => exact h
  | recvConfig w => exact h
  | addConv sc2 => exact h
  | dropConv sc2 => exact h
  | setAuth v => exact authLoop_mirror v (envWire (Json.obj v)) s.convs s h

theorem runR_mirror (ops : List ROp) :
    ∀ s : State, (∀ sc, s.localAuth sc = s.remoteAuth sc) →
      ∀ sc, (runR ops s).localAuth sc = (runR ops s).remoteAuth sc := by
  induction ops with
  | nil => intro s h; exact h
  | cons op rest ih => intro s h; exact ih (rstep op s) (rstep_mirror op s h)

end ManilaPluginRequires

/-! ## Step lemmas for the reactive flags (subordinate side) -/

namespace ManilaPluginProvides

theorem prov_update_status_inv (s : State) (h : s.changed = true → s.available = true) :
    (update_status s).changed = true → (update_status s).available = true := by
  unfold update_status
  split
  · intro _; rfl
  · exact h

theorem prov_update_status_available_mono (s : State) (h : s.available = true) :
    (update_status s).available = true := by
  unfold update_status
  split
  · rfl
  · exact h

theorem prov_update_status_changed_mono (s : State) (h : s.changed = true) :
    (update_status s).changed = true := by
  unfold update_status
  split
  · rfl
  · exact h

theorem setName_flags (w : Option Wire) (s : State) :
    (pstep (POp.setName w) s).connected = s.connected ∧
    (pstep (POp.setName w) s).available = s.available ∧
    (pstep (POp.setName w) s).changed = s.changed := by
  cases hh : s.convs.head? <;> simp [pstep, name_set, hh]

theorem setConfig_flags (d : Json) (s : State) :
    (pstep (POp.setConfig d) s).connected = s.connected ∧
    (pstep (POp.setConfig d) s).available = s.available ∧
    (pstep (POp.setConfig d) s).changed = s.changed := by
  cases hh : s.convs.head? <;> simp [pstep, configuration_data_set, hh]

theorem pstep_inv_CA (op : POp) (s : State)
    (h : s.changed = true → s.available = true) :
    (pstep op s).changed = true → (pstep op s).available = true := by
  cases op with
  | joined => exact prov_update_status_inv { s with connected := true } h
  | changedHook => exact prov_update_status_inv s h
  | updateStatus => exact prov_update_status_inv s h
  | departed => intro hc; exact absurd hc (by simp [pstep, departed])
  | clearChanged => intro hc; exact absurd hc (by simp [pstep, clear_changed])
  | recvAuth w => exact h
  | addConv sc => exact h
  | dropConv sc => exact h
  | setName w =>
    intro hc
    have hf := setName_flags w s
    rw [hf.2.2] at hc
    rw [hf.2.1]
    exact h hc
  | setConfig d =>
    intro hc
    have hf := setConfig_flags d s
    rw [hf.2.2] at hc
    rw [hf.2.1]
    exact h hc

theorem runP_inv_CA (ops : List POp) :
    ∀ s : State, (s.changed = true → s.available = true) →
      (runP ops s).changed = true → (runP ops s).available = true := by
  induction ops with
  | nil => intro s h; exact h
  | cons op rest ih => intro s h; exact ih (pstep op s) (pstep_inv_CA op s h)

theorem pstep_available_mono (op : POp) (s : State) (hop : op ≠ POp.departed)
    (h : s.available = true) : (pstep op s).available = true := by
  cases op with
  | joined => exact prov_update_status_available_mono { s with connected := true } h
  | changedHook => exact prov_update_status_available_mono s h
  | updateStatus => exact prov_update_status_available_mono s h
  | departed => exact absurd rfl hop
  | clearChanged => exact h
  | recvAuth w => exact h
  | addConv sc => exact h
  | dropConv sc => exact h
  | setName w =>
    rw [(setName_flags w s).2.1]
    exact h
  | setConfig d =>
    rw [(setConfig_flags d s).2.1]
    exact h

theorem runP_available_mono (ops : List POp) :
    ∀ s : State, s.available = true → (∀ op ∈ ops, op ≠ POp.departed) →
      (runP ops s).available = true := by
  induction ops with
  | nil => intro s h _; exact h
  | cons op rest ih =>
    intro s h hops
    exact ih (pstep op s) (pstep_available_mono op s (hops op (by simp)) h)
      (fun op2 h2 => hops op2 (by simp [h2]))

theorem pstep_changed_mono (op : POp) (s : State) (h1 : op ≠ POp.clearChanged)
    (h2 : op ≠ POp.departed) (hc : s.changed = true) :
    (pstep op s).changed = true := by
  cases op with
  | joined => exact prov_update_status_changed_mono { s with connected := true } hc
  | changedHook => exact prov_update_status_changed_mono s hc
  | updateStatus => exact prov_update_status_changed_mono s hc
  | departed => exact absurd rfl h2
  | clearChanged => exact absurd rfl h1
  | recvAuth w => exact hc
  | addConv sc => exact hc
  | dropConv sc => exact hc
  | setName w =>
    rw [(setName_flags w s).2.2]
    exact hc
  | setConfig d =>
    rw [(setConfig_flags d s).2.2]
    exact hc

theorem prov_update_status_store (s : State) :
    (update_status s).localName = s.localName ∧
    (update_status s).remoteName = s.remoteName ∧
    (update_status s).localConfig = s.localConfig ∧
    (update_status s).remoteConfig = s.remoteConfig := by
  unfold update_status
  split
  · exact ⟨rfl, rfl, rfl, rfl⟩
  · exact ⟨rfl, rfl, rfl, rfl⟩

theorem pstep_mirror (op : POp) (s : State)
    (h : ∀ sc, s.localName sc = s.remoteName sc ∧ s.localConfig sc = s.remoteConfig sc) :
    ∀ sc, (pstep op s).localName sc = (pstep op s).remoteName sc ∧
      (pstep op s).localConfig sc = (pstep op s).remoteConfig sc := by
  cases op with
  | joined =>
    intro sc
    have hu := prov_update_status_store { s with connected := true }
    show (update_status { s with connected := true }).localName sc =
        (update_status { s with connected := true }).remoteName sc ∧
      (update_status { s with connected := true }).localConfig sc =
        (update_status { s with connected := true }).remoteConfig sc
    rw [hu.1, hu.2.1, hu.2.2.1, hu.2.2.2]
    exact h sc
  | changedHook =>
    intro sc
    have hu := prov_update_status_store s
    show (update_status s).localName sc = (update_status s).remoteName sc ∧
      (update_status s).localConfig sc = (update_status s).remoteConfig sc
    rw [hu.1, hu.2.1, hu.2.2.1, hu.2.2.2]
    exact h sc
  | updateStatus =>
    intro sc
    have hu := prov_update_status_store s
    show (update_status s).localName sc = (update_status s).remoteName sc ∧
      (update_status s).localConfig sc = (update_status s).remoteConfig sc
    rw [hu.1, hu.2.1, hu.2.2.1, hu.2.2.2]
    exact h sc
  | departed => exact h
  | clearChanged => exact h
  | recvAuth w => exact h
  | addConv sc2 => exact h
  | dropConv sc2 => exact h
  | setName w =>
    intro sc
    cases hh : s.convs.head? with
    | none => simpa [pstep, name_set, hh] using h sc
    | some sc0 =>
      by_cases he : sc = sc0
      · subst he
        constructor <;> simp [pstep, name_set, hh] <;> exact (h sc).2
      · constructor <;> simp [pstep, name_set, hh, he] <;>
          first
            | exact (h sc).1
            | exact (h sc).2
  | setConfig d =>
    intro sc
    cases hh : s.convs.head? with
    | none => simpa [pstep, configuration_data_set, hh] using h sc
    | some sc0 =>
      by_cases he : sc = sc0
      · subst he
        constructor <;> simp [pstep, configuration_data_set, hh] <;> exact (h sc).1
      · constructor <;> simp [pstep, configuration_data_set, hh, he] <;>
          first
            | exact (h sc).1
            | exact (h sc).2

theorem runP_mirror (ops : List POp) :
    ∀ s : State,
      (∀ sc, s.localName sc = s.remoteName sc ∧
        s.localConfig sc = s.remoteConfig sc) →
      ∀ sc, (runP ops s).localName sc = (runP ops s).remoteName sc ∧
        (runP ops s).localConfig sc = (runP ops s).remoteConfig sc := by
  induction ops with
  | nil => intro s h; exact h
  | cons op rest ih => intro s h; exact ih (pstep op s) (pstep_mirror op s h)

end ManilaPluginProvides

/-! ## Claim C2 -/

/-- C2: in every state of either endpoint reachable by a sequence of
joined, changed, departed/broken, update_status, clear_changed,
conversation management, inbound data updates and outbound data writes
from the initial state, the changed flag implies the available flag. -/
theorem c2_changed_implies_available :
    (∀ ops : List ManilaPluginRequires.ROp,
      (ManilaPluginRequires.runR ops ManilaPluginRequires.init).changed = true →
      (ManilaPluginRequires.runR ops ManilaPluginRequires.init).available = true) ∧
    (∀ ops : List ManilaPluginProvides.POp,
      (ManilaPluginProvides.runP ops ManilaPluginProvides.init).changed = true →
      (ManilaPluginProvides.runP ops ManilaPluginProvides.init).available =
        true) :=
  ⟨fun ops =>
    ManilaPluginRequires.runR_inv_CA ops ManilaPluginRequires.init
      (fun h => absurd h (by decide)),
   fun ops =>
    ManilaPluginProvides.runP_inv_CA ops ManilaPluginProvides.init
      (fun h => absurd h (by decide))⟩

/-- Witness for C2: after the peer pushes both the name and the
configuration data and the joined hook fires, the principal's changed
flag is set — and, by the theorem, available is set too; mirrored on the
subordinate side with the authentication data. -/
theorem c2_changed_implies_available_witness :
    ((ManilaPluginRequires.runR
      [ManilaPluginRequires.ROp.recvName (some ['n']),
       ManilaPluginRequires.ROp.recvConfig (some ['c']),
       ManilaPluginRequires.ROp.joined]
      ManilaPluginRequires.init).changed = true ∧
    (ManilaPluginRequires.runR
      [ManilaPluginRequires.ROp.recvName (some ['n']),
       ManilaPluginRequires.ROp.recvConfig (some ['c']),
       ManilaPluginRequires.ROp.joined]
      ManilaPluginRequires.init).available = true) ∧
    ((ManilaPluginProvides.runP
      [ManilaPluginProvides.POp.recvAuth (some ['a']),
       ManilaPluginProvides.POp.joined]
      ManilaPluginProvides.init).changed = true ∧
    (ManilaPluginProvides.runP
      [ManilaPluginProvides.POp.recvAuth (some ['a']),
       ManilaPluginProvides.POp.joined]
      ManilaPluginProvides.init).available = true) :=
  ⟨⟨by decide, c2_changed_implies_available.1 _ (by decide)⟩,
   ⟨by decide, c2_changed_implies_available.2 _ (by decide)⟩⟩

/-! ## Claim C4 -/

/-- C4: once the available flag is set it stays set under every sequence
of operations that contains no departed/broken event (changed events,
update_status, clear_changed, repeated joined events, data traffic), and
the departed/broken handler is the operation that clears it. -/
theorem c4_available_monotonic :
    (∀ (s : ManilaPluginRequires.State) (ops : List ManilaPluginRequires.ROp),
      s.available = true →
      (∀ op ∈ ops, op ≠ ManilaPluginRequires.ROp.departed) →
      (ManilaPluginRequires.runR ops s).available = true) ∧
    (∀ s : ManilaPluginRequires.State,
      (ManilaPluginRequires.rstep ManilaPluginRequires.ROp.departed s).available =
        false) ∧
    (∀ (s : ManilaPluginProvides.State) (ops : List ManilaPluginProvides.POp),
      s.available = true →
      (∀ op ∈ ops, op ≠ ManilaPluginProvides.POp.departed) →
      (ManilaPluginProvides.runP ops s).available = true) ∧
    (∀ s : ManilaPluginProvides.State,
      (ManilaPluginProvides.pstep ManilaPluginProvides.POp.departed s).available =
        false) :=
  ⟨fun s ops h hops => ManilaPluginRequires.runR_available_mono ops s h hops,
   fun _ => rfl,
   fun s ops h hops => ManilaPluginProvides.runP_available_mono ops s h hops,
   fun _ => rfl⟩

/-- Witness for C4: an available state stays available across a changed
hook, a clear_changed and a repeated joined on both endpoints. -/
theorem c4_available_monotonic_witness :
    ((⟨true, true, true, none, none, [], fun _ => none, fun _ => none⟩ :
        ManilaPluginRequires.State).available = true ∧
      (∀ op ∈ [ManilaPluginRequires.ROp.changedHook,
          ManilaPluginRequires.ROp.clearChanged,
          ManilaPluginRequires.ROp.joined],
        op ≠ ManilaPluginRequires.ROp.departed) ∧
      (ManilaPluginRequires.runR
        [ManilaPluginRequires.ROp.changedHook,
         ManilaPluginRequires.ROp.clearChanged,
         ManilaPluginRequires.ROp.joined]
        ⟨true, true, true, none, none, [], fun _ => none,
          fun _ => none⟩).available = true) ∧
    ((⟨true, true, true, none, [], fun _ => none, fun _ => none, fun _ => none,
        fun _ => none⟩ : ManilaPluginProvides.State).available = true ∧
      (ManilaPluginProvides.runP
        [ManilaPluginProvides.POp.changedHook,
         ManilaPluginProvides.POp.clearChanged,
         ManilaPluginProvides.POp.joined]
        ⟨true, true, true, none, [], fun _ => none, fun _ => none,
          fun _ => none, fun _ => none⟩).available = true) :=
  ⟨⟨rfl, by decide,
    c4_available_monotonic.1 _ _ rfl (by decide)⟩,
   ⟨rfl,
    c4_available_monotonic.2.2.1 _ _ rfl (by decide)⟩⟩

/-! ## Claim C5 -/

/-- C5: the departed/broken handler clears connected, available and
changed simultaneously in every state — including any state in which the
joined hook and the reconciliation have set all three — and running it
again from the already-cleared state leaves the state unchanged. -/
theorem c5_departed_clears_all_and_idempotent :
    (∀ s : ManilaPluginRequires.State,
      (ManilaPluginRequires.rstep ManilaPluginRequires.ROp.departed s).connected =
        false ∧
      (ManilaPluginRequires.rstep ManilaPluginRequires.ROp.departed s).available =
        false ∧
      (ManilaPluginRequires.rstep ManilaPluginRequires.ROp.departed s).changed =
        false ∧
      ManilaPluginRequires.rstep ManilaPluginRequires.ROp.departed
        (ManilaPluginRequires.rstep ManilaPluginRequires.ROp.departed s) =
        ManilaPluginRequires.rstep ManilaPluginRequires.ROp.departed s) ∧
    (∀ s : ManilaPluginProvides.State,
      (ManilaPluginProvides.pstep ManilaPluginProvides.POp.departed s).connected =
        false ∧
      (ManilaPluginProvides.pstep ManilaPluginProvides.POp.departed s).available =
        false ∧
      (ManilaPluginProvides.pstep ManilaPluginProvides.POp.departed s).changed =
        false ∧
      ManilaPluginProvides.pstep ManilaPluginProvides.POp.departed
        (ManilaPluginProvides.pstep ManilaPluginProvides.POp.departed s) =
        ManilaPluginProvides.pstep ManilaPluginProvides.POp.departed s) :=
  ⟨fun _ => ⟨rfl, rfl, rfl, rfl⟩, fun _ => ⟨rfl, rfl, rfl, rfl⟩⟩

/-! ## Claim C10 -/

/-- C10: in every reachable state of either endpoint the session-scoped
local cache of each outbound field equals the remote-visible slot pushed
to the peer — every write stores the identical serialized string to both
in the same call, and nothing else touches either. -/
theorem c10_local_cache_mirrors_remote :
    (∀ (ops : List ManilaPluginRequires.ROp) (sc : Scope),
      (ManilaPluginRequires.runR ops ManilaPluginRequires.init).localAuth sc =
      (ManilaPluginRequires.runR ops ManilaPluginRequires.init).remoteAuth sc) ∧
    (∀ (ops : List ManilaPluginProvides.POp) (sc : Scope),
      (ManilaPluginProvides.runP ops ManilaPluginProvides.init).localName sc =
        (ManilaPluginProvides.runP ops ManilaPluginProvides.init).remoteName sc ∧
      (ManilaPluginProvides.runP ops ManilaPluginProvides.init).localConfig sc =
        (ManilaPluginProvides.runP ops
          ManilaPluginProvides.init).remoteConfig sc) :=
  ⟨fun ops => ManilaPluginRequires.runR_mirror ops ManilaPluginRequires.init
      (fun _ => rfl),
   fun ops => ManilaPluginProvides.runP_mirror ops ManilaPluginProvides.init
      (fun _ => ⟨rfl, rfl⟩)⟩

/-! ## Claim C9 (corrected) -/

/-- C9 as stated is false on the code: the changed flag is not cleared
only by clear_changed — the departed/broken handler clears it too.  The
counterexample is a reachable state (peer data received, joined fired) in
which changed is set, and a departed event, which is not the
clear_changed operation, clears it. -/
theorem c9_changed_cleared_by_departed_counterexample :
    (ManilaPluginRequires.runR
      [ManilaPluginRequires.ROp.recvName (some ['n']),
       ManilaPluginRequires.ROp.recvConfig (some ['c']),
       ManilaPluginRequires.ROp.joined]
      ManilaPluginRequires.init).changed = true ∧
    (ManilaPluginRequires.rstep ManilaPluginRequires.ROp.departed
      (ManilaPluginRequires.runR
        [ManilaPluginRequires.ROp.recvName (some ['n']),
         ManilaPluginRequires.ROp.recvConfig (some ['c']),
         ManilaPluginRequires.ROp.joined]
        ManilaPluginRequires.init)).changed = false ∧
    ManilaPluginRequires.ROp.departed ≠ ManilaPluginRequires.ROp.clearChanged := by
  refine ⟨by decide, by decide, by decide⟩

/-- C9 amended: the changed flag is cleared only by the explicit consumer
acknowledgment clear_changed or by the departed/broken teardown handler —
no other operation of either endpoint ever clears it; and clear_changed
clears the changed flag only, leaving the available and connected flags
exactly as they were in every state. -/
theorem c9_changed_clearing_amended :
    (∀ (s : ManilaPluginRequires.State) (op : ManilaPluginRequires.ROp),
      op ≠ ManilaPluginRequires.ROp.clearChanged →
      op ≠ ManilaPluginRequires.ROp.departed →
      s.changed = true → (ManilaPluginRequires.rstep op s).changed = true) ∧
    (∀ s : ManilaPluginRequires.State,
      (ManilaPluginRequires.rstep ManilaPluginRequires.ROp.clearChanged
          s).changed = false ∧
      (ManilaPluginRequires.rstep ManilaPluginRequires.ROp.clearChanged
          s).available = s.available ∧
      (ManilaPluginRequires.rstep ManilaPluginRequires.ROp.clearChanged
          s).connected = s.connected) ∧
    (∀ (s : ManilaPluginProvides.State) (op : ManilaPluginProvides.POp),
      op ≠ ManilaPluginProvides.POp.clearChanged →
      op ≠ ManilaPluginProvides.POp.departed →
      s.changed = true → (ManilaPluginProvides.pstep op s).changed = true) ∧
    (∀ s : ManilaPluginProvides.State,
      (ManilaPluginProvides.pstep ManilaPluginProvides.POp.clearChanged
          s).changed = false ∧
      (ManilaPluginProvides.pstep ManilaPluginProvides.POp.clearChanged
          s).available = s.available ∧
      (ManilaPluginProvides.pstep ManilaPluginProvides.POp.clearChanged
          s).connected = s.connected) :=
  ⟨fun s op h1 h2 hc => ManilaPluginRequires.rstep_changed_mono op s h1 h2 hc,
   fun _ => ⟨rfl, rfl, rfl⟩,
   fun s op h1 h2 hc => ManilaPluginProvides.pstep_changed_mono op s h1 h2 hc,
   fun _ => ⟨rfl, rfl, rfl⟩⟩

/-- Witness for the amended C9: a changed hook on a state with the
changed flag set leaves it set on both endpoints. -/
theorem c9_changed_clearing_amended_witness :
    (ManilaPluginRequires.ROp.changedHook ≠
        ManilaPluginRequires.ROp.clearChanged ∧
      ManilaPluginRequires.ROp.changedHook ≠ ManilaPluginRequires.ROp.departed ∧
      (⟨true, true, true, none, none, [], fun _ => none, fun _ => none⟩ :
        ManilaPluginRequires.State).changed = true ∧
      (ManilaPluginRequires.rstep ManilaPluginRequires.ROp.changedHook
        ⟨true, true, true, none, none, [], fun _ => none,
          fun _ => none⟩).changed = true) ∧
    (ManilaPluginProvides.POp.changedHook ≠
        ManilaPluginProvides.POp.clearChanged ∧
      ManilaPluginProvides.POp.changedHook ≠ ManilaPluginProvides.POp.departed ∧
      (⟨true, true, true, none, [], fun _ => none, fun _ => none, fun _ => none,
        fun _ => none⟩ : ManilaPluginProvides.State).changed = true ∧
      (ManilaPluginProvides.pstep ManilaPluginProvides.POp.changedHook
        ⟨true, true, true, none, [], fun _ => none, fun _ => none,
          fun _ => none, fun _ => none⟩).changed = true) :=
  ⟨⟨by decide, by decide, rfl,
    c9_changed_clearing_amended.1 _ _ (by decide) (by decide) rfl⟩,
   ⟨by decide, by decide, rfl,
    c9_changed_clearing_amended.2.2.1 _ _ (by decide) (by decide) rfl⟩⟩

/-! ## Claim C3 -/

/-- C3: encoding a record as the serialized envelope text and decoding
that text the way the getters do yields the record back: the envelope
text re-parses to the envelope, the principal's configuration_data getter
returns exactly the record the peer serialized, the subordinate's
authentication_data getter likewise, and a setConfigurationData on the
plugin side places in the remote-visible slot exactly the envelope text
whose decoding is the identical structure. -/
theorem c3_envelope_roundtrip :
    (∀ d : Json, loads (envWire d) = some (envelope d)) ∧
    (∀ (d : Json) (rs : ManilaPluginRequires.State),
      rs.configIn = some (envWire d) →
      ManilaPluginRequires.configuration_data rs = Except.ok (some d)) ∧
    (∀ (d : Json) (ps : ManilaPluginProvides.State),
      ps.authIn = some (envWire d) →
      ManilaPluginProvides.authentication_data ps = Except.ok (some d)) ∧
    (∀ (d : Json) (ps : ManilaPluginProvides.State) (sc : Scope),
      ps.convs.head? = some sc →
      ∃ ps2, ManilaPluginProvides.configuration_data_set d ps = Except.ok ps2 ∧
        ps2.remoteConfig sc = some (envWire d) ∧
        ps2.localConfig sc = some (envWire d)) := by
  refine ⟨loads_envWire, ?_, ?_, ?_⟩
  · intro d rs h
    simp [ManilaPluginRequires.configuration_data, h, loads_envWire,
      indexData_envelope]
  · intro d ps h
    simp [ManilaPluginProvides.authentication_data, h, loads_envWire,
      indexData_envelope]
  · intro d ps sc h
    refine ⟨{ ps with
        localConfig := fun x => if x = sc then some (envWire d) else ps.localConfig x,
        remoteConfig := fun x => if x = sc then some (envWire d) else ps.remoteConfig x },
      ?_, ?_, ?_⟩
    · simp [ManilaPluginProvides.configuration_data_set, h]
    · simp
    · simp

/-- Witness for C3: the spec's scenario value, a dict with the key
"complete" mapped to true and the key "cinder.conf" mapped to an object
holding one section of one key/value pair, delivered over the transport
into the principal's inbound field, is returned identically by the
principal's configuration_data getter. -/
theorem c3_envelope_roundtrip_witness :
    (⟨false, false, false, none,
        some (envWire (Json.obj (JMems.cons "complete".toList (Json.bool true)
          (JMems.cons "cinder.conf".toList (Json.obj
            (JMems.cons "DEFAULT".toList
              (Json.arr (JArr.cons
                (Json.arr (JArr.cons (Json.str ['a'])
                  (JArr.cons (Json.str ['b']) JArr.nil)))
                JArr.nil))
              JMems.nil))
          JMems.nil)))),
        [], fun _ => none, fun _ => none⟩ :
      ManilaPluginRequires.State).configIn =
      some (envWire (Json.obj (JMems.cons "complete".toList (Json.bool true)
        (JMems.cons "cinder.conf".toList (Json.obj
          (JMems.cons "DEFAULT".toList
            (Json.arr (JArr.cons
              (Json.arr (JArr.cons (Json.str ['a'])
                (JArr.cons (Json.str ['b']) JArr.nil)))
              JArr.nil))
            JMems.nil))
        JMems.nil)))) ∧
    ManilaPluginRequires.configuration_data
      ⟨false, false, false, none,
        some (envWire (Json.obj (JMems.cons "complete".toList (Json.bool true)
          (JMems.cons "cinder.conf".toList (Json.obj
            (JMems.cons "DEFAULT".toList
              (Json.arr (JArr.cons
                (Json.arr (JArr.cons (Json.str ['a'])
                  (JArr.cons (Json.str ['b']) JArr.nil)))
                JArr.nil))
              JMems.nil))
          JMems.nil)))),
        [], fun _ => none, fun _ => none⟩ =
      Except.ok (some (Json.obj (JMems.cons "complete".toList (Json.bool true)
        (JMems.cons "cinder.conf".toList (Json.obj
          (JMems.cons "DEFAULT".toList
            (Json.arr (JArr.cons
              (Json.arr (JArr.cons (Json.str ['a'])
                (JArr.cons (Json.str ['b']) JArr.nil)))
              JArr.nil))
            JMems.nil))
        JMems.nil)))) :=
  ⟨rfl, c3_envelope_roundtrip.2.1 _ _ rfl⟩

/-! ## Claim C6 (a bug in the code) -/

/-- C6 is what the spec requires, but the code does not do it: with zero
conversations each of the three per-session read accessors raises
IndexError instead of returning None.  conversations()[0] raises
IndexError, which the principal getter's `except ValueError` does not
catch, and the plugin's name and configuration_data getters are entirely
unguarded.  This theorem evaluates the three getters at the failing input
(the empty conversation list). -/
theorem c6_no_session_getters_raise :
    ManilaPluginRequires.authentication_data
      ⟨false, false, false, none, none, [], fun _ => none, fun _ => none⟩ =
      Except.error PyErr.indexError ∧
    ManilaPluginProvides.name
      ⟨false, false, false, none, [], fun _ => none, fun _ => none,
        fun _ => none, fun _ => none⟩ =
      Except.error PyErr.indexError ∧
    ManilaPluginProvides.configuration_data
      ⟨false, false, false, none, [], fun _ => none, fun _ => none,
        fun _ => none, fun _ => none⟩ =
      Except.error PyErr.indexError :=
  ⟨rfl, rfl, rfl⟩
